import Mathlib

/-!
# FakeCluster (package testutils)

A shallow embedding of `testutils/fake_cluster.go` and the properties of its
operations.

Modelling conventions.

* A Go `map[string]T` is an association list `GoMap T`; `GoMap.index` is the
  two-result lookup `v, ok := m[k]` and `GoMap.assign` is `m[k] = v`.  A nil map
  and an empty map read the same, so both are `[]`.
* The map of a request is given as the list of its entries in the order in which
  `range` visits them; its keys are pairwise distinct.
* `sync.RWMutex` is explicit state.  An operation that cannot take the lock does
  not return; operations therefore produce an `Option`, `none` meaning that the
  call never returns.
* Goroutines started by `go` are collected in `Process.pending` and run later,
  by `Process.wake`; a closure holds the address of the variable it captured,
  and `Process.vars` is the store of those variables.
* Calls of `SendEvent` are recorded, in order, in `Process.sent`.
* `hostClients` is the map allocated by `NewFakeCluster`, so that `SetHostClient`
  can assign to it; a client is held by value, its address and its `cluster` field.
-/

namespace Testutils

/-! ## Data model -/

/-- A job (`host.Job`), referred to in the source through a non-nil `*host.Job`:
its identifier and the rest of the record, which the cluster never inspects. -/
structure Job where
  ID : String
  payload : Nat
deriving DecidableEq, Repr

/-- A host record (`host.Host`). -/
structure Host where
  ID : String
  Jobs : List Job
  Attributes : List (String × String)
deriving DecidableEq, Repr

/-- The zero value of `host.Host`, which indexing a map yields for an absent key. -/
def Host.zero : Host := ⟨"", [], []⟩

/-- A Go map with string keys. -/
abbrev GoMap (α : Type) := List (String × α)

/-- The lookup `v, ok := m[k]`; `none` stands for `ok = false`. -/
def GoMap.index {α : Type} : GoMap α → String → Option α
  | [], _ => none
  | (k, v) :: rest, id => if k = id then some v else GoMap.index rest id

/-- The assignment `m[k] = v`. -/
def GoMap.assign {α : Type} : GoMap α → String → α → GoMap α
  | [], id, x => [(id, x)]
  | (k, v) :: rest, id, x =>
    if k = id then (k, x) :: rest else (k, v) :: GoMap.assign rest id x

/-- The keys visited by `for id := range m`. -/
def GoMap.keys {α : Type} (m : GoMap α) : List String := m.map Prod.fst

/-- State of a `sync.RWMutex`: whether a writer holds it, and how many readers do. -/
structure RWMutex where
  writer : Bool
  readers : Nat
deriving DecidableEq, Repr

/-- The zero value of `sync.RWMutex`: held by nobody. -/
def RWMutex.free : RWMutex := ⟨false, 0⟩

/-- A pointer to a `FakeHostClient`: the address of the object and its `cluster`
field (the address of a `FakeCluster`, `none` for nil). -/
structure FakeHostClient where
  addr : Nat
  cluster : Option Nat
deriving DecidableEq, Repr

/-- The struct `FakeCluster`, with the address at which it lives. -/
structure FakeCluster where
  addr : Nat
  hosts : GoMap Host
  hostClients : GoMap FakeHostClient
  mtx : RWMutex
deriving DecidableEq, Repr

/-- A goroutine started at line 67 of the source and not yet run: the closure
captured the variable `client` (assigned once) and the loop variable `job`, the
latter held here by its address in `Process.vars`. -/
structure Goroutine where
  client : FakeHostClient
  job : Nat
deriving DecidableEq, Repr

/-- One call `client.SendEvent(kind, jobID)`. -/
structure SendEventCall where
  client : FakeHostClient
  kind : String
  jobID : String
deriving DecidableEq, Repr

/-- The running process: the cluster, the store of captured loop variables, the
goroutines waiting to run, and the calls of `SendEvent` made so far. -/
structure Process where
  c : FakeCluster
  vars : List (Option Job)
  pending : List Goroutine
  sent : List SendEventCall
deriving DecidableEq, Repr

/-- The request of `AddJobs` (`host.AddJobsReq`): the entries of `HostJobs` in
the order of iteration. -/
structure AddJobsReq where
  HostJobs : List (String × List Job)
deriving DecidableEq, Repr

/-- The reply of `AddJobs` (`host.AddJobsRes`). -/
structure AddJobsRes where
  State : GoMap Host
deriving DecidableEq, Repr

/-- The value `errors.New("FakeCluster: unknown host")`. -/
def errUnknownHost : String := "FakeCluster: unknown host"

/-! ## The lock -/

/-- The call `c.mtx.Lock()`: taken when nobody holds the lock, otherwise the caller waits. -/
def Process.Lock (s : Process) : Option Process :=
  if s.c.mtx.writer = false ∧ s.c.mtx.readers = 0 then
    some { s with c := { s.c with mtx := ⟨true, 0⟩ } }
  else none

/-- The call `c.mtx.Unlock()`; unlocking a mutex that is not locked is fatal. -/
def Process.Unlock (s : Process) : Option Process :=
  if s.c.mtx.writer = true then
    some { s with c := { s.c with mtx := ⟨false, s.c.mtx.readers⟩ } }
  else none

/-- The call `c.mtx.RLock()`: taken when no writer holds the lock. -/
def Process.RLock (s : Process) : Option Process :=
  if s.c.mtx.writer = false then
    some { s with c := { s.c with mtx := ⟨false, s.c.mtx.readers + 1⟩ } }
  else none

/-- The call `c.mtx.RUnlock()`; fatal when no reader holds the lock. -/
def Process.RUnlock (s : Process) : Option Process :=
  if 0 < s.c.mtx.readers then
    some { s with c := { s.c with mtx := ⟨s.c.mtx.writer, s.c.mtx.readers - 1⟩ } }
  else none

/-! ## Event delivery -/

/-- Modelled from the spec: `FakeHostClient.SendEvent` is declared outside
`fake_cluster.go`.  The spec gives it as the capability `deliver(eventKind, jobID)`
that the cluster calls and does not implement; the call is recorded. -/
def SendEvent (client : FakeHostClient) (kind jobID : String) (s : Process) : Process :=
  { s with sent := s.sent ++ [⟨client, kind, jobID⟩] }

/-- The body of the goroutine of lines 67 to 70, once its sleep is over: it reads
the captured variable `job` and sends the start event.  A nil `job` is a crash. -/
def Goroutine.run (g : Goroutine) (s : Process) : Option Process :=
  match s.vars.get? g.job with
  | some (some job) => some (SendEvent g.client "start" job.ID s)
  | _ => none

/-- Runs the pending goroutine number `i`, which then is no longer pending. -/
def Process.wake (i : Nat) (s : Process) : Option Process :=
  match s.pending.get? i with
  | some g => Goroutine.run g { s with pending := s.pending.eraseIdx i }
  | none => none

/-- Runs every pending goroutine, in the order in which they were started. -/
def Process.wakeAll.go : Nat → Process → Option Process
  | 0, s => some s
  | n + 1, s =>
    match Process.wake 0 s with
    | some s1 => Process.wakeAll.go n s1
    | none => none

/-- Runs every goroutine that is pending now. -/
def Process.wakeAll (s : Process) : Option Process :=
  Process.wakeAll.go s.pending.length s

/-! ## Operations of `FakeCluster` -/

/-- The constructor `NewFakeCluster`, allocating the cluster at address `addr`. -/
def NewFakeCluster (addr : Nat) : FakeCluster :=
  { addr := addr, hosts := [], hostClients := [], mtx := RWMutex.free }

/-- The statements `make([]*host.Job, len(h.Jobs))` and `copy(jobs, h.Jobs)`:
a new slice holding the same pointers. -/
def copyJobs : List Job → List Job
  | [] => []
  | job :: rest => job :: copyJobs rest

/-- The method `GetHost`. -/
def GetHost (id : String) (s : Process) : Option (Host × Process) :=
  match s.RLock with
  | none => none
  | some s1 =>
    let h := (GoMap.index s1.c.hosts id).getD Host.zero
    let jobs := copyJobs h.Jobs
    let res : Host := { ID := h.ID, Jobs := jobs, Attributes := h.Attributes }
    match s1.RUnlock with
    | none => none
    | some s2 => some (res, s2)

/-- The loop of `ListHosts` (lines 26 to 28) over the keys still to visit. -/
def ListHosts.loop : List String → GoMap Host → Process → Option (GoMap Host × Process)
  | [], hosts, s => some (hosts, s)
  | id :: rest, hosts, s =>
    match GetHost id s with
    | none => none
    | some (h, s1) => ListHosts.loop rest (GoMap.assign hosts id h) s1

/-- The method `ListHosts`; the second component of the result is its `error`. -/
def ListHosts (s : Process) : Option ((GoMap Host × Option String) × Process) :=
  match s.RLock with
  | none => none
  | some s1 =>
    match ListHosts.loop (GoMap.keys s1.c.hosts) [] s1 with
    | none => none
    | some (hosts, s2) =>
      match s2.RUnlock with
      | none => none
      | some s3 => some ((hosts, none), s3)

/-- The method `DialHost`. -/
def DialHost (id : String) (s : Process) : Except String FakeHostClient :=
  match GoMap.index s.c.hostClients id with
  | none => .error errUnknownHost
  | some client => .ok client

/-- The inner loop of `AddJobs` (lines 61 to 71).  The source predates Go 1.22
(it has no `go.mod`), so the `for` statement has one variable `job`, stored here at
address `a`: each iteration assigns the next element to it and starts a goroutine
whose closure refers to that variable. -/
def AddJobs.spawn (client : FakeHostClient) (a : Nat) : List Job → Process → Process
  | [], s => s
  | job :: rest, s =>
    AddJobs.spawn client a rest
      { s with vars := s.vars.set a (some job), pending := s.pending ++ [⟨client, a⟩] }

/-- Lines 60 to 72 of `AddJobs`: when a client is registered for the host, the
loop variable `job` is allocated and the inner loop runs. -/
def AddJobs.notify (hostID : String) (jobs : List Job) (s : Process) : Process :=
  match GoMap.index s.c.hostClients hostID with
  | some client =>
    AddJobs.spawn client s.vars.length jobs { s with vars := s.vars ++ [none] }
  | none => s

/-- The outer loop of `AddJobs` (lines 55 to 75) over the entries still to visit.
The first component of the result is the error with which the loop returned,
`none` when it ran to its end. -/
def AddJobs.loop : List (String × List Job) → Process → Option String × Process
  | [], s => (none, s)
  | (hostID, jobs) :: rest, s =>
    match GoMap.index s.c.hosts hostID with
    | none => (some errUnknownHost, s)
    | some host =>
      let s1 := AddJobs.notify hostID jobs s
      let host1 : Host := { host with Jobs := host.Jobs ++ jobs }
      AddJobs.loop rest { s1 with c := { s1.c with hosts := GoMap.assign s1.c.hosts hostID host1 } }

/-- The method `AddJobs`; the deferred `Unlock` runs on both return paths. -/
def AddJobs (req : AddJobsReq) (s : Process) : Option (Except String AddJobsRes × Process) :=
  match s.Lock with
  | none => none
  | some s1 =>
    match AddJobs.loop req.HostJobs s1 with
    | (some err, s2) =>
      match s2.Unlock with
      | none => none
      | some s3 => some (.error err, s3)
    | (none, s2) =>
      match s2.Unlock with
      | none => none
      | some s3 => some (.ok ⟨s2.c.hosts⟩, s3)

/-- The loop of `RemoveJob` (lines 86 to 90): `jobs` is the slice built so far. -/
def RemoveJob.loop (jobID : String) : List Job → List Job → List Job
  | [], jobs => jobs
  | job :: rest, jobs =>
    if job.ID ≠ jobID then RemoveJob.loop jobID rest (jobs ++ [job])
    else RemoveJob.loop jobID rest jobs

/-- Lines 80 to 93 of `RemoveJob`.  The first component of the result is the
error returned at line 83, `none` when line 93 was reached. -/
def RemoveJob.update (hostID jobID : String) (s : Process) : Option (Option String × Process) :=
  match s.Lock with
  | none => none
  | some s1 =>
    match GoMap.index s1.c.hosts hostID with
    | none => some (some errUnknownHost, s1)
    | some h =>
      let jobs := RemoveJob.loop jobID h.Jobs []
      let h1 : Host := { h with Jobs := jobs }
      let s2 : Process := { s1 with c := { s1.c with hosts := GoMap.assign s1.c.hosts hostID h1 } }
      match s2.Unlock with
      | none => none
      | some s3 => some (none, s3)

/-- Lines 95 to 101 of `RemoveJob`. -/
def RemoveJob.notify (hostID jobID : String) (errored : Bool) (s : Process) : Process :=
  match GoMap.index s.c.hostClients hostID with
  | some client =>
    if errored then SendEvent client "error" jobID s
    else SendEvent client "stop" jobID s
  | none => s

/-- The method `RemoveJob`; the first component of the result is its `error`. -/
def RemoveJob (hostID jobID : String) (errored : Bool) (s : Process) :
    Option (Option String × Process) :=
  match RemoveJob.update hostID jobID s with
  | none => none
  | some (some err, s1) => some (some err, s1)
  | some (none, s1) => some (none, RemoveJob.notify hostID jobID errored s1)

/-- Lines 95 to 101 of `RemoveJob` with the method `SendEvent` of the client as a
parameter: `send client kind jobID` is applied to the state of the process at the
moment of the call, which is thereby what the callee finds. -/
def RemoveJob.notifyWith (send : FakeHostClient → String → String → Process → Process)
    (hostID jobID : String) (errored : Bool) (s : Process) : Process :=
  match GoMap.index s.c.hostClients hostID with
  | some client =>
    if errored then send client "error" jobID s
    else send client "stop" jobID s
  | none => s

/-- The method `RemoveJob` with the method `SendEvent` of the client as a parameter;
`RemoveJob` is the case of `SendEvent`. -/
def RemoveJobWith (send : FakeHostClient → String → String → Process → Process)
    (hostID jobID : String) (errored : Bool) (s : Process) :
    Option (Option String × Process) :=
  match RemoveJob.update hostID jobID s with
  | none => none
  | some (some err, s1) => some (some err, s1)
  | some (none, s1) => some (none, RemoveJob.notifyWith send hostID jobID errored s1)

/-- A `SendEvent` that records, in the kind of the call, what it finds when it is
called: whether the lock is free and whether the host still has a job with the
identifier of the event. -/
def probeEvent (hostID : String) (client : FakeHostClient) (kind jobID : String)
    (s : Process) : Process :=
  let lock := if s.c.mtx = RWMutex.free then "lock free" else "lock held"
  let jobs :=
    if ((GoMap.index s.c.hosts hostID).getD Host.zero).Jobs.any (fun job => job.ID = jobID)
    then "job present" else "job removed"
  { s with sent := s.sent ++ [⟨client, kind ++ ", " ++ lock ++ ", " ++ jobs, jobID⟩] }

/-- The method `SetHosts`. -/
def SetHosts (h : GoMap Host) (s : Process) : Process :=
  { s with c := { s.c with hosts := h } }

/-- The method `SetHostClient`: sets the back-reference of the client, then
registers it. -/
def SetHostClient (id : String) (h : FakeHostClient) (s : Process) : Process :=
  let h1 : FakeHostClient := { h with cluster := some s.c.addr }
  { s with c := { s.c with hostClients := GoMap.assign s.c.hostClients id h1 } }

/-- The job lists are read through this: the jobs of the host tracked under `id`. -/
def jobsOf (s : Process) (id : String) : Option (List Job) :=
  (GoMap.index s.c.hosts id).map Host.Jobs


/-! ## Notions used in the statements -/

/-- In every tracked host's job list each job identifier occurs at most once. -/
def UniqueJobs (s : Process) : Prop :=
  ∀ id h, GoMap.index s.c.hosts id = some h → (h.Jobs.map Job.ID).Nodup

/-- The part of a host record that is not its job list: identifier and attributes. -/
def Host.header (h : Host) : String × List (String × String) := (h.ID, h.Attributes)

/-- The two states track the same identifiers, each with the same identifier
field and the same attributes. -/
def SameHeaders (s s' : Process) : Prop :=
  ∀ id, (GoMap.index s'.c.hosts id).map Host.header = (GoMap.index s.c.hosts id).map Host.header

/-- The clients of the goroutines that the lines 60 to 72 start for the entries
`l` of a request, in order: for an entry whose host has a registered client, that
client once per job; for an entry whose host has none, nothing. -/
def startedFor (clients : GoMap FakeHostClient) : List (String × List Job) → List FakeHostClient
  | [] => []
  | (hostID, jobs) :: rest =>
    match GoMap.index clients hostID with
    | some client => List.replicate jobs.length client ++ startedFor clients rest
    | none => startedFor clients rest

/-! ## Example states -/

/-- A client registered for `h1` in the examples. -/
def exClient : FakeHostClient := ⟨7, some 1⟩

/-- A cluster tracking `h1` (no jobs, zone `a`, with a client) and `h2` (one job,
no client), with a second client registered under the untracked identifier `h9`;
its lock is free and nothing is pending. -/
def exProcess : Process :=
  { c := { addr := 1,
           hosts := [("h1", ⟨"h1", [], [("zone", "a")]⟩), ("h2", ⟨"h2", [⟨"x", 0⟩], []⟩)],
           hostClients := [("h1", exClient), ("h9", ⟨8, some 1⟩)],
           mtx := RWMutex.free },
    vars := [], pending := [], sent := [] }

/-- A request naming the tracked host `h1` and then the untracked host `h9`. -/
def exReqUnknown : AddJobsReq := ⟨[("h1", [⟨"j1", 0⟩]), ("h9", [⟨"j2", 0⟩])]⟩

/-- A request naming the tracked hosts `h2` and `h1`. -/
def exReqTracked : AddJobsReq := ⟨[("h2", [⟨"j1", 0⟩]), ("h1", [⟨"j2", 0⟩, ⟨"j3", 0⟩])]⟩

/-- A request adding the jobs `j1` and `j2` to `h1`. -/
def exReqTwoJobs : AddJobsReq := ⟨[("h1", [⟨"j1", 0⟩, ⟨"j2", 0⟩])]⟩

/-- A cluster whose only host, tracked under `h0`, has the zero record. -/
def exProcessZero : Process :=
  { c := { addr := 1, hosts := [("h0", Host.zero)], hostClients := [], mtx := RWMutex.free },
    vars := [], pending := [], sent := [] }

/-- The state in which `AddJobs exReqTracked` leaves `exProcess`. -/
def exProcessAfter : Process :=
  { c := { addr := 1,
           hosts := [("h1", ⟨"h1", [⟨"j2", 0⟩, ⟨"j3", 0⟩], [("zone", "a")]⟩),
                     ("h2", ⟨"h2", [⟨"x", 0⟩, ⟨"j1", 0⟩], []⟩)],
           hostClients := [("h1", exClient), ("h9", ⟨8, some 1⟩)],
           mtx := RWMutex.free },
    vars := [some ⟨"j3", 0⟩], pending := [⟨exClient, 0⟩, ⟨exClient, 0⟩], sent := [] }

/-- A request adding to `h2` a job with the identifier `x`, which `h2` has already. -/
def exReqDup : AddJobsReq := ⟨[("h2", [⟨"x", 1⟩])]⟩

/-- A request adding the job `j1` to `h1`. -/
def exReqOne : AddJobsReq := ⟨[("h1", [⟨"j1", 0⟩])]⟩

/-- The state in which the failed `AddJobs exReqUnknown` leaves `exProcess`: the
job `j1` is on `h1` and its goroutine is pending. -/
def exProcessPartial : Process :=
  { c := { addr := 1,
           hosts := [("h1", ⟨"h1", [⟨"j1", 0⟩], [("zone", "a")]⟩),
                     ("h2", ⟨"h2", [⟨"x", 0⟩], []⟩)],
           hostClients := [("h1", exClient), ("h9", ⟨8, some 1⟩)],
           mtx := RWMutex.free },
    vars := [some ⟨"j1", 0⟩], pending := [⟨exClient, 0⟩], sent := [] }

/-! ## Maps -/

theorem GoMap.index_assign_same {α : Type} (m : GoMap α) (id : String) (x : α) :
    GoMap.index (GoMap.assign m id x) id = some x := by
  induction m with
  | nil => simp [GoMap.assign, GoMap.index]
  | cons e rest ih =>
    obtain ⟨k, v⟩ := e
    by_cases hk : k = id
    · simp [GoMap.assign, GoMap.index, hk]
    · simp [GoMap.assign, GoMap.index, hk, ih]

theorem GoMap.index_assign_ne {α : Type} (m : GoMap α) (id id1 : String) (x : α)
    (hne : id ≠ id1) : GoMap.index (GoMap.assign m id x) id1 = GoMap.index m id1 := by
  induction m with
  | nil => simp [GoMap.assign, GoMap.index, hne]
  | cons e rest ih =>
    obtain ⟨k, v⟩ := e
    by_cases hk : k = id
    · subst hk
      simp [GoMap.assign, GoMap.index, hne]
    · simp [GoMap.assign, GoMap.index, hk, ih]

/-- Assigning to a key that is present leaves the set of keys as it was. -/
theorem GoMap.index_assign_isSome {α : Type} (m : GoMap α) (id id1 : String) (x : α)
    (hin : (GoMap.index m id).isSome) :
    (GoMap.index (GoMap.assign m id x) id1).isSome = (GoMap.index m id1).isSome := by
  by_cases hne : id = id1
  · subst hne
    rw [GoMap.index_assign_same]
    simp [hin]
  · rw [GoMap.index_assign_ne m id id1 x hne]

/-! ## The lock -/

theorem Process.Lock_free (s : Process) (hfree : s.c.mtx = RWMutex.free) :
    s.Lock = some { s with c := { s.c with mtx := ⟨true, 0⟩ } } := by
  simp [Process.Lock, hfree, RWMutex.free]

theorem Process.Unlock_held (s : Process) (hw : s.c.mtx.writer = true) :
    s.Unlock = some { s with c := { s.c with mtx := ⟨false, s.c.mtx.readers⟩ } } := by
  simp [Process.Unlock, hw]

/-! ## `AddJobs` -/

theorem AddJobs.spawn_c (client : FakeHostClient) (a : Nat) (jobs : List Job) (s : Process) :
    (AddJobs.spawn client a jobs s).c = s.c := by
  induction jobs generalizing s with
  | nil => rfl
  | cons job rest ih => simp [AddJobs.spawn, ih]

theorem AddJobs.spawn_sent (client : FakeHostClient) (a : Nat) (jobs : List Job) (s : Process) :
    (AddJobs.spawn client a jobs s).sent = s.sent := by
  induction jobs generalizing s with
  | nil => rfl
  | cons job rest ih => simp [AddJobs.spawn, ih]

theorem AddJobs.notify_c (hostID : String) (jobs : List Job) (s : Process) :
    (AddJobs.notify hostID jobs s).c = s.c := by
  unfold AddJobs.notify
  split
  · rw [AddJobs.spawn_c]
  · rfl

theorem AddJobs.notify_sent (hostID : String) (jobs : List Job) (s : Process) :
    (AddJobs.notify hostID jobs s).sent = s.sent := by
  unfold AddJobs.notify
  split
  · rw [AddJobs.spawn_sent]
  · rfl

/-- One round of the outer loop on a tracked host. -/
theorem AddJobs.loop_cons_tracked (hostID : String) (jobs : List Job)
    (rest : List (String × List Job)) (s : Process) (host : Host)
    (hin : GoMap.index s.c.hosts hostID = some host) :
    AddJobs.loop ((hostID, jobs) :: rest) s =
      AddJobs.loop rest
        { AddJobs.notify hostID jobs s with
          c := { s.c with
            hosts := GoMap.assign s.c.hosts hostID { host with Jobs := host.Jobs ++ jobs } } } := by
  simp [AddJobs.loop, hin, AddJobs.notify_c]

theorem AddJobs.loop_cons_unknown (hostID : String) (jobs : List Job)
    (rest : List (String × List Job)) (s : Process)
    (hout : GoMap.index s.c.hosts hostID = none) :
    AddJobs.loop ((hostID, jobs) :: rest) s = (some errUnknownHost, s) := by
  simp [AddJobs.loop, hout]

/-- The outer loop touches neither the lock, nor the clients, nor the record of calls. -/
theorem AddJobs.loop_frame (l : List (String × List Job)) (s : Process) :
    (AddJobs.loop l s).2.c.mtx = s.c.mtx ∧
    (AddJobs.loop l s).2.c.hostClients = s.c.hostClients ∧
    (AddJobs.loop l s).2.c.addr = s.c.addr ∧
    (AddJobs.loop l s).2.sent = s.sent := by
  induction l generalizing s with
  | nil => simp [AddJobs.loop]
  | cons e rest ih =>
    obtain ⟨hostID, jobs⟩ := e
    cases hin : GoMap.index s.c.hosts hostID with
    | none => simp [AddJobs.loop_cons_unknown _ _ _ _ hin]
    | some host =>
      rw [AddJobs.loop_cons_tracked _ _ _ _ _ hin]
      have h := ih { AddJobs.notify hostID jobs s with
          c := { s.c with
            hosts := GoMap.assign s.c.hosts hostID { host with Jobs := host.Jobs ++ jobs } } }
      simpa [AddJobs.notify_sent] using h

/-- The outer loop leaves alone every host it does not visit, and the set of
tracked identifiers. -/
theorem AddJobs.loop_hosts (l : List (String × List Job)) (s : Process) :
    (∀ id, id ∉ l.map Prod.fst →
      GoMap.index (AddJobs.loop l s).2.c.hosts id = GoMap.index s.c.hosts id) ∧
    (∀ id, (GoMap.index (AddJobs.loop l s).2.c.hosts id).isSome
      = (GoMap.index s.c.hosts id).isSome) := by
  induction l generalizing s with
  | nil => simp [AddJobs.loop]
  | cons e rest ih =>
    obtain ⟨hostID, jobs⟩ := e
    cases hin : GoMap.index s.c.hosts hostID with
    | none => simp [AddJobs.loop_cons_unknown _ _ _ _ hin]
    | some host =>
      rw [AddJobs.loop_cons_tracked _ _ _ _ _ hin]
      obtain ⟨h1, h2⟩ := ih { AddJobs.notify hostID jobs s with
          c := { s.c with
            hosts := GoMap.assign s.c.hosts hostID { host with Jobs := host.Jobs ++ jobs } } }
      constructor
      · intro id hid
        simp only [List.map_cons, List.mem_cons, not_or] at hid
        rw [h1 id hid.2]
        exact GoMap.index_assign_ne _ _ _ _ (fun h => hid.1 h.symm)
      · intro id
        rw [h2 id]
        exact GoMap.index_assign_isSome _ _ _ _ (by simp [hin])

/-- Where the outer loop stops: when some entry names an untracked host, the
entries split at the first such entry, the loop returns the error there, and only
hosts of the entries before it can have changed. -/
theorem AddJobs.loop_stops (l : List (String × List Job)) (s : Process)
    (hex : ∃ e ∈ l, GoMap.index s.c.hosts e.1 = none) :
    ∃ pre hostID jobs post,
      l = pre ++ (hostID, jobs) :: post ∧
      (∀ e ∈ pre, (GoMap.index s.c.hosts e.1).isSome) ∧
      GoMap.index s.c.hosts hostID = none ∧
      (AddJobs.loop l s).1 = some errUnknownHost ∧
      (∀ id, id ∉ pre.map Prod.fst →
        GoMap.index (AddJobs.loop l s).2.c.hosts id = GoMap.index s.c.hosts id) := by
  induction l generalizing s with
  | nil => simp at hex
  | cons e rest ih =>
    obtain ⟨hostID, jobs⟩ := e
    cases hin : GoMap.index s.c.hosts hostID with
    | none =>
      refine ⟨[], hostID, jobs, rest, rfl, ?_, hin, ?_, ?_⟩
      · simp
      · simp [AddJobs.loop_cons_unknown _ _ _ _ hin]
      · simp [AddJobs.loop_cons_unknown _ _ _ _ hin]
    | some host =>
      have hkeep : ∀ id,
          (GoMap.index (GoMap.assign s.c.hosts hostID
            { host with Jobs := host.Jobs ++ jobs }) id).isSome
            = (GoMap.index s.c.hosts id).isSome :=
        fun id => GoMap.index_assign_isSome _ _ _ _ (by simp [hin])
      obtain ⟨e, he, hnone⟩ := hex
      have hrest : e ∈ rest := by
        rcases List.mem_cons.mp he with h | h
        · subst h
          simp [hin] at hnone
        · exact h
      rw [AddJobs.loop_cons_tracked _ _ _ _ _ hin]
      obtain ⟨pre, hostID1, jobs1, post, hsplit, hpre, hout, herr, hsame⟩ :=
        ih { AddJobs.notify hostID jobs s with
          c := { s.c with
            hosts := GoMap.assign s.c.hosts hostID { host with Jobs := host.Jobs ++ jobs } } }
          ⟨e, hrest, by
            have h := hkeep e.1
            simp only [hnone, Option.isSome_none] at h
            simpa using h⟩
      refine ⟨(hostID, jobs) :: pre, hostID1, jobs1, post, by simp [hsplit], ?_, ?_, herr, ?_⟩
      · intro x hx
        rcases List.mem_cons.mp hx with h | h
        · subst h
          simp [hin]
        · have h1 := hpre x h
          have h2 := hkeep x.1
          simp only at h1
          rw [← h2]
          exact h1
      · have h2 := hkeep hostID1
        simp only at hout
        rw [hout] at h2
        simpa using h2.symm
      · intro id hid
        simp only [List.map_cons, List.mem_cons, not_or] at hid
        rw [hsame id hid.2]
        exact GoMap.index_assign_ne _ _ _ _ (fun h => hid.1 h.symm)

/-- The method `AddJobs` in terms of its outer loop, when the lock is free. -/
theorem AddJobs_eq (req : AddJobsReq) (s : Process) (hfree : s.c.mtx = RWMutex.free) :
    AddJobs req s =
      some (match (AddJobs.loop req.HostJobs { s with c := { s.c with mtx := ⟨true, 0⟩ } }).1 with
            | some err => .error err
            | none => .ok ⟨(AddJobs.loop req.HostJobs
                { s with c := { s.c with mtx := ⟨true, 0⟩ } }).2.c.hosts⟩,
            { (AddJobs.loop req.HostJobs { s with c := { s.c with mtx := ⟨true, 0⟩ } }).2 with
              c := { (AddJobs.loop req.HostJobs
                  { s with c := { s.c with mtx := ⟨true, 0⟩ } }).2.c with mtx := RWMutex.free } }) := by
  simp only [AddJobs, Process.Lock_free s hfree]
  have hf := AddJobs.loop_frame req.HostJobs { s with c := { s.c with mtx := ⟨true, 0⟩ } }
  generalize AddJobs.loop req.HostJobs { s with c := { s.c with mtx := ⟨true, 0⟩ } } = r at hf
  obtain ⟨err, s2⟩ := r
  obtain ⟨hm, -, -, -⟩ := hf
  simp only at hm
  cases err with
  | none => simp [Process.Unlock, hm, RWMutex.free]
  | some e => simp [Process.Unlock, hm, RWMutex.free]

/-- The outer loop on a request all of whose hosts are tracked: it runs to its
end and each named host has the requested jobs appended. -/
theorem AddJobs.loop_ok (l : List (String × List Job)) (s : Process)
    (hall : ∀ e ∈ l, (GoMap.index s.c.hosts e.1).isSome)
    (hnd : (l.map Prod.fst).Nodup) :
    (AddJobs.loop l s).1 = none ∧
    (∀ hostID jobs, (hostID, jobs) ∈ l →
      ∃ h, GoMap.index s.c.hosts hostID = some h ∧
        GoMap.index (AddJobs.loop l s).2.c.hosts hostID
          = some { h with Jobs := h.Jobs ++ jobs }) := by
  induction l generalizing s with
  | nil => simp [AddJobs.loop]
  | cons e rest ih =>
    obtain ⟨hostID, jobs⟩ := e
    have hhead := hall (hostID, jobs) (List.mem_cons_self _ _)
    obtain ⟨host, hin⟩ := Option.isSome_iff_exists.mp hhead
    simp only at hin
    simp only [List.map_cons, List.nodup_cons] at hnd
    obtain ⟨hfresh, hnd1⟩ := hnd
    rw [AddJobs.loop_cons_tracked _ _ _ _ _ hin]
    have hkeep : ∀ id,
        (GoMap.index (GoMap.assign s.c.hosts hostID
          { host with Jobs := host.Jobs ++ jobs }) id).isSome
          = (GoMap.index s.c.hosts id).isSome :=
      fun id => GoMap.index_assign_isSome _ _ _ _ (by simp [hin])
    obtain ⟨herr, happ⟩ := ih { AddJobs.notify hostID jobs s with
        c := { s.c with
          hosts := GoMap.assign s.c.hosts hostID { host with Jobs := host.Jobs ++ jobs } } }
      (by
        intro x hx
        have h1 := hall x (List.mem_cons_of_mem _ hx)
        have h2 := hkeep x.1
        simp only
        rw [h2]
        exact h1) hnd1
    refine ⟨herr, ?_⟩
    intro hostID1 jobs1 hmem
    rcases List.mem_cons.mp hmem with h | h
    · obtain ⟨h1, h2⟩ := Prod.mk.inj h
      subst h1
      subst h2
      refine ⟨host, hin, ?_⟩
      rw [(AddJobs.loop_hosts rest _).1 hostID1 hfresh]
      exact GoMap.index_assign_same _ _ _
    · obtain ⟨h1, hbefore, hafter⟩ := happ hostID1 jobs1 h
      have hne : hostID ≠ hostID1 := by
        intro heq
        apply hfresh
        rw [heq]
        exact List.mem_map_of_mem Prod.fst h
      simp only at hbefore
      rw [GoMap.index_assign_ne _ _ _ _ hne] at hbefore
      exact ⟨h1, hbefore, hafter⟩

/-! ### Properties of `AddJobs` -/

/-- C1, as stated, fails: for a request that names an untracked host after a
tracked one, `AddJobs` returns the unknown-host error but the tracked host visited
first has already had its jobs appended. -/
theorem AddJobs_unknown_host_not_atomic :
    ¬ (∀ (s : Process) (req : AddJobsReq), s.c.mtx = RWMutex.free →
        (req.HostJobs.map Prod.fst).Nodup →
        (∃ e ∈ req.HostJobs, GoMap.index s.c.hosts e.1 = none) →
        ∃ s', AddJobs req s = some (.error errUnknownHost, s') ∧
          ∀ id, jobsOf s' id = jobsOf s id) := by
  intro h
  obtain ⟨s', hrun, hsame⟩ := h exProcess exReqUnknown rfl (by decide)
    ⟨("h9", [⟨"j2", 0⟩]), by decide, by decide⟩
  have heval : (AddJobs exReqUnknown exProcess).map (fun r => jobsOf r.2 "h1")
      = some (some [⟨"j1", 0⟩]) := by decide
  rw [hrun] at heval
  have h1 := hsame "h1"
  simp only [Option.map_some'] at heval
  rw [h1] at heval
  revert heval
  decide

/-- C1, amended: when the request names an untracked host, `AddJobs` (called with
the lock free) returns the unknown-host error; the entries of the request split at
the first untracked host, and every host not visited before that entry has the same
record, hence the same job list, after the call as before it. -/
theorem AddJobs_unknown_host (s : Process) (req : AddJobsReq)
    (hfree : s.c.mtx = RWMutex.free)
    (hex : ∃ e ∈ req.HostJobs, GoMap.index s.c.hosts e.1 = none) :
    ∃ s' pre hostID jobs post,
      AddJobs req s = some (.error errUnknownHost, s') ∧
      req.HostJobs = pre ++ (hostID, jobs) :: post ∧
      (∀ e ∈ pre, (GoMap.index s.c.hosts e.1).isSome) ∧
      GoMap.index s.c.hosts hostID = none ∧
      (∀ id, id ∉ pre.map Prod.fst →
        GoMap.index s'.c.hosts id = GoMap.index s.c.hosts id ∧ jobsOf s' id = jobsOf s id) := by
  obtain ⟨pre, hostID, jobs, post, hsplit, hpre, hout, herr, hsame⟩ :=
    AddJobs.loop_stops req.HostJobs { s with c := { s.c with mtx := ⟨true, 0⟩ } } hex
  have hrun := AddJobs_eq req s hfree
  simp only [herr] at hrun
  exact ⟨_, pre, hostID, jobs, post, hrun, hsplit, hpre, hout,
    fun id hid => ⟨hsame id hid, congrArg (Option.map Host.Jobs) (hsame id hid)⟩⟩

/-- The amended C1 at a request naming `h1` and then the untracked `h9`. -/
theorem AddJobs_unknown_host_witness :
    exProcess.c.mtx = RWMutex.free ∧
    (∃ e ∈ exReqUnknown.HostJobs, GoMap.index exProcess.c.hosts e.1 = none) ∧
    ∃ s' pre hostID jobs post,
      AddJobs exReqUnknown exProcess = some (.error errUnknownHost, s') ∧
      exReqUnknown.HostJobs = pre ++ (hostID, jobs) :: post ∧
      (∀ e ∈ pre, (GoMap.index exProcess.c.hosts e.1).isSome) ∧
      GoMap.index exProcess.c.hosts hostID = none ∧
      (∀ id, id ∉ pre.map Prod.fst →
        GoMap.index s'.c.hosts id = GoMap.index exProcess.c.hosts id ∧
        jobsOf s' id = jobsOf exProcess id) :=
  ⟨rfl, ⟨("h9", [⟨"j2", 0⟩]), by decide, by decide⟩,
    AddJobs_unknown_host exProcess exReqUnknown rfl ⟨("h9", [⟨"j2", 0⟩]), by decide, by decide⟩⟩

/-- C2: when every host named in the request is tracked, `AddJobs` (called with the
lock free) succeeds; each named host then has its previous jobs followed by the
requested jobs, in the order given, and every host not named has its record
unchanged. -/
theorem AddJobs_appends (s : Process) (req : AddJobsReq)
    (hfree : s.c.mtx = RWMutex.free)
    (hnd : (req.HostJobs.map Prod.fst).Nodup)
    (hall : ∀ e ∈ req.HostJobs, (GoMap.index s.c.hosts e.1).isSome) :
    ∃ s' res,
      AddJobs req s = some (.ok res, s') ∧
      (∀ hostID jobs, (hostID, jobs) ∈ req.HostJobs →
        ∃ h, GoMap.index s.c.hosts hostID = some h ∧
          GoMap.index s'.c.hosts hostID = some { h with Jobs := h.Jobs ++ jobs }) ∧
      (∀ id, id ∉ req.HostJobs.map Prod.fst →
        GoMap.index s'.c.hosts id = GoMap.index s.c.hosts id) := by
  obtain ⟨herr, happ⟩ :=
    AddJobs.loop_ok req.HostJobs { s with c := { s.c with mtx := ⟨true, 0⟩ } } hall hnd
  have hrun := AddJobs_eq req s hfree
  simp only [herr] at hrun
  exact ⟨_, _, hrun, happ, (AddJobs.loop_hosts req.HostJobs _).1⟩

/-- C2 at a request naming `h2` and `h1`, both tracked. -/
theorem AddJobs_appends_witness :
    exProcess.c.mtx = RWMutex.free ∧
    (exReqTracked.HostJobs.map Prod.fst).Nodup ∧
    (∀ e ∈ exReqTracked.HostJobs, (GoMap.index exProcess.c.hosts e.1).isSome) ∧
    ∃ s' res,
      AddJobs exReqTracked exProcess = some (.ok res, s') ∧
      (∀ hostID jobs, (hostID, jobs) ∈ exReqTracked.HostJobs →
        ∃ h, GoMap.index exProcess.c.hosts hostID = some h ∧
          GoMap.index s'.c.hosts hostID = some { h with Jobs := h.Jobs ++ jobs }) ∧
      (∀ id, id ∉ exReqTracked.HostJobs.map Prod.fst →
        GoMap.index s'.c.hosts id = GoMap.index exProcess.c.hosts id) :=
  ⟨rfl, by decide, by decide,
    AddJobs_appends exProcess exReqTracked rfl (by decide) (by decide)⟩

/-! ### `RemoveJob` -/

/-- The loop of `RemoveJob` keeps, in order, the jobs whose identifier differs. -/
theorem RemoveJob.loop_eq_filter (jobID : String) (l jobs : List Job) :
    RemoveJob.loop jobID l jobs = jobs ++ l.filter (fun job => job.ID ≠ jobID) := by
  induction l generalizing jobs with
  | nil => simp [RemoveJob.loop]
  | cons job rest ih =>
    by_cases hid : job.ID = jobID
    · simp [RemoveJob.loop, hid, ih]
    · simp [RemoveJob.loop, hid, ih]

/-- The critical section of `RemoveJob` on a tracked host, entered with the lock free. -/
theorem RemoveJob.update_tracked (hostID jobID : String) (s : Process) (h : Host)
    (hfree : s.c.mtx = RWMutex.free) (hin : GoMap.index s.c.hosts hostID = some h) :
    RemoveJob.update hostID jobID s =
      some (none, { s with c := { s.c with
        hosts := GoMap.assign s.c.hosts hostID
          { h with Jobs := h.Jobs.filter (fun job => job.ID ≠ jobID) },
        mtx := RWMutex.free } }) := by
  simp [RemoveJob.update, Process.Lock_free s hfree, hin, Process.Unlock, RemoveJob.loop_eq_filter,
    RWMutex.free]

/-- The critical section of `RemoveJob` on an untracked host, entered with the lock
free: the error is returned at line 83, before any `Unlock`. -/
theorem RemoveJob.update_unknown (hostID jobID : String) (s : Process)
    (hfree : s.c.mtx = RWMutex.free) (hout : GoMap.index s.c.hosts hostID = none) :
    RemoveJob.update hostID jobID s =
      some (some errUnknownHost, { s with c := { s.c with mtx := ⟨true, 0⟩ } }) := by
  simp [RemoveJob.update, Process.Lock_free s hfree, hout]

theorem RemoveJob.notify_cluster (hostID jobID : String) (errored : Bool) (s : Process) :
    (RemoveJob.notify hostID jobID errored s).c = s.c := by
  unfold RemoveJob.notify
  split
  · split <;> rfl
  · rfl

theorem RemoveJob.notify_pending (hostID jobID : String) (errored : Bool) (s : Process) :
    (RemoveJob.notify hostID jobID errored s).pending = s.pending := by
  unfold RemoveJob.notify
  split
  · split <;> rfl
  · rfl

/-- The method `RemoveJob` on a tracked host, called with the lock free. -/
theorem RemoveJob_tracked (hostID jobID : String) (errored : Bool) (s : Process) (h : Host)
    (hfree : s.c.mtx = RWMutex.free) (hin : GoMap.index s.c.hosts hostID = some h) :
    RemoveJob hostID jobID errored s =
      some (none, RemoveJob.notify hostID jobID errored { s with c := { s.c with
        hosts := GoMap.assign s.c.hosts hostID
          { h with Jobs := h.Jobs.filter (fun job => job.ID ≠ jobID) },
        mtx := RWMutex.free } }) := by
  simp only [RemoveJob, RemoveJob.update_tracked hostID jobID s h hfree hin]

/-- A list from which nothing is filtered out is left as it is. -/
theorem filter_absent (jobID : String) (l : List Job) (habs : ∀ job ∈ l, job.ID ≠ jobID) :
    l.filter (fun job => job.ID ≠ jobID) = l := by
  rw [List.filter_eq_self]
  intro job hjob
  simpa using habs job hjob

/-- Assigning to a key the value it already has changes no lookup. -/
theorem GoMap.index_assign_self {α : Type} (m : GoMap α) (id id1 : String) (x : α)
    (hin : GoMap.index m id = some x) :
    GoMap.index (GoMap.assign m id x) id1 = GoMap.index m id1 := by
  by_cases hne : id = id1
  · subst hne
    rw [GoMap.index_assign_same, hin]
  · exact GoMap.index_assign_ne m id id1 x hne

/-- C3, evaluated on the code: after `AddJobs` of the jobs `j1` and `j2` on `h1`,
which has a client, no event has been sent and two goroutines are pending; once
they run, both start events carry the identifier `j2`, the value the shared loop
variable `job` has when they read it, and none carries `j1`. -/
theorem AddJobs_start_events_share_job :
    (AddJobs exReqTwoJobs exProcess).map (fun r => (r.2.sent, r.2.pending.length))
      = some ([], 2) ∧
    ((AddJobs exReqTwoJobs exProcess).bind (fun r => r.2.wakeAll)).map Process.sent
      = some [⟨exClient, "start", "j2"⟩, ⟨exClient, "start", "j2"⟩] := by
  decide

/-- C4: on a tracked host, `RemoveJob` (called with the lock free) returns no error,
whatever the flag; afterwards the host's job list is the previous one without the
jobs whose identifier is the given one, the others kept in their order, so that no
job with that identifier is left, however often it occurred. -/
theorem RemoveJob_removes (hostID jobID : String) (errored : Bool) (s : Process) (h : Host)
    (hfree : s.c.mtx = RWMutex.free) (hin : GoMap.index s.c.hosts hostID = some h) :
    ∃ s', RemoveJob hostID jobID errored s = some (none, s') ∧
      jobsOf s' hostID = some (h.Jobs.filter (fun job => job.ID ≠ jobID)) ∧
      (∀ jobs, jobsOf s' hostID = some jobs →
        (∀ job ∈ jobs, job.ID ≠ jobID) ∧
        (∀ job ∈ h.Jobs, job.ID ≠ jobID → job ∈ jobs) ∧
        jobs.Sublist h.Jobs) := by
  have hjobs : jobsOf (RemoveJob.notify hostID jobID errored { s with c := { s.c with
        hosts := GoMap.assign s.c.hosts hostID
          { h with Jobs := h.Jobs.filter (fun job => job.ID ≠ jobID) },
        mtx := RWMutex.free } }) hostID
      = some (h.Jobs.filter (fun job => job.ID ≠ jobID)) := by
    simp [jobsOf, RemoveJob.notify_cluster, GoMap.index_assign_same]
  refine ⟨_, RemoveJob_tracked hostID jobID errored s h hfree hin, hjobs, ?_⟩
  intro jobs hj
  rw [hjobs] at hj
  have hj1 := Option.some.inj hj
  subst hj1
  refine ⟨?_, ?_, List.filter_sublist _⟩
  · intro job hjob
    simpa using (List.mem_filter.mp hjob).2
  · intro job hjob hne
    exact List.mem_filter.mpr ⟨hjob, by simpa using hne⟩

/-- C4 at the host `h2` of the example, whose only job is `x`, removed as failed. -/
theorem RemoveJob_removes_witness :
    exProcess.c.mtx = RWMutex.free ∧
    GoMap.index exProcess.c.hosts "h2" = some ⟨"h2", [⟨"x", 0⟩], []⟩ ∧
    ∃ s', RemoveJob "h2" "x" true exProcess = some (none, s') ∧
      jobsOf s' "h2" = some ([(⟨"x", 0⟩ : Job)].filter (fun job => job.ID ≠ "x")) ∧
      (∀ jobs, jobsOf s' "h2" = some jobs →
        (∀ job ∈ jobs, job.ID ≠ "x") ∧
        (∀ job ∈ [(⟨"x", 0⟩ : Job)], job.ID ≠ "x" → job ∈ jobs) ∧
        jobs.Sublist [(⟨"x", 0⟩ : Job)]) :=
  ⟨rfl, by decide,
    RemoveJob_removes "h2" "x" true exProcess ⟨"h2", [⟨"x", 0⟩], []⟩ rfl (by decide)⟩

/-- C5: on a tracked host with a registered client, `RemoveJob` (called with the
lock free) makes exactly one call of `SendEvent`, on that client, with the given
job identifier and the kind `error` when the flag is set and `stop` otherwise; no
other call is made and no goroutine is started. -/
theorem RemoveJob_sends (hostID jobID : String) (errored : Bool) (s : Process) (h : Host)
    (client : FakeHostClient)
    (hfree : s.c.mtx = RWMutex.free) (hin : GoMap.index s.c.hosts hostID = some h)
    (hcl : GoMap.index s.c.hostClients hostID = some client) :
    ∃ s', RemoveJob hostID jobID errored s = some (none, s') ∧
      s'.sent = s.sent ++ [⟨client, if errored then "error" else "stop", jobID⟩] ∧
      s'.pending = s.pending := by
  refine ⟨_, RemoveJob_tracked hostID jobID errored s h hfree hin, ?_, ?_⟩
  · cases errored <;> simp [RemoveJob.notify, hcl, SendEvent]
  · rw [RemoveJob.notify_pending]

/-- C5 at the host `h1` of the example, whose client is `exClient`. -/
theorem RemoveJob_sends_witness :
    exProcess.c.mtx = RWMutex.free ∧
    GoMap.index exProcess.c.hosts "h1" = some ⟨"h1", [], [("zone", "a")]⟩ ∧
    GoMap.index exProcess.c.hostClients "h1" = some exClient ∧
    ∃ s', RemoveJob "h1" "j1" false exProcess = some (none, s') ∧
      s'.sent = exProcess.sent ++ [⟨exClient, if false then "error" else "stop", "j1"⟩] ∧
      s'.pending = exProcess.pending :=
  ⟨rfl, by decide, by decide,
    RemoveJob_sends "h1" "j1" false exProcess ⟨"h1", [], [("zone", "a")]⟩ exClient rfl
      (by decide) (by decide)⟩

/-- C6: on an untracked host, `RemoveJob` (called with the lock free) returns the
unknown-host error, leaves the host map as it was, calls `SendEvent` on no client
and starts no goroutine, whether or not a client is registered under that
identifier. -/
theorem RemoveJob_unknown_host (hostID jobID : String) (errored : Bool) (s : Process)
    (hfree : s.c.mtx = RWMutex.free) (hout : GoMap.index s.c.hosts hostID = none) :
    ∃ s', RemoveJob hostID jobID errored s = some (some errUnknownHost, s') ∧
      s'.c.hosts = s.c.hosts ∧ s'.c.hostClients = s.c.hostClients ∧
      s'.sent = s.sent ∧ s'.pending = s.pending := by
  refine ⟨{ s with c := { s.c with mtx := ⟨true, 0⟩ } }, ?_, rfl, rfl, rfl, rfl⟩
  simp only [RemoveJob, RemoveJob.update_unknown hostID jobID s hfree hout]

/-- C6 at the identifier `h9` of the example, untracked but with a client. -/
theorem RemoveJob_unknown_host_witness :
    exProcess.c.mtx = RWMutex.free ∧
    GoMap.index exProcess.c.hosts "h9" = none ∧
    (GoMap.index exProcess.c.hostClients "h9").isSome ∧
    ∃ s', RemoveJob "h9" "x" false exProcess = some (some errUnknownHost, s') ∧
      s'.c.hosts = exProcess.c.hosts ∧ s'.c.hostClients = exProcess.c.hostClients ∧
      s'.sent = exProcess.sent ∧ s'.pending = exProcess.pending :=
  ⟨rfl, by decide, by decide, RemoveJob_unknown_host "h9" "x" false exProcess rfl (by decide)⟩

/-- C7: on a tracked host none of whose jobs has the given identifier, `RemoveJob`
(called with the lock free) returns no error and every host, this one included,
has the same record afterwards: same identifier, same attributes, same jobs in the
same order. -/
theorem RemoveJob_absent_job (hostID jobID : String) (errored : Bool) (s : Process) (h : Host)
    (hfree : s.c.mtx = RWMutex.free) (hin : GoMap.index s.c.hosts hostID = some h)
    (habs : ∀ job ∈ h.Jobs, job.ID ≠ jobID) :
    ∃ s', RemoveJob hostID jobID errored s = some (none, s') ∧
      GoMap.index s'.c.hosts hostID = some h ∧
      (∀ id, GoMap.index s'.c.hosts id = GoMap.index s.c.hosts id) := by
  have hall : ∀ id, GoMap.index (RemoveJob.notify hostID jobID errored { s with c := { s.c with
        hosts := GoMap.assign s.c.hosts hostID
          { h with Jobs := h.Jobs.filter (fun job => job.ID ≠ jobID) },
        mtx := RWMutex.free } }).c.hosts id = GoMap.index s.c.hosts id := by
    intro id
    rw [RemoveJob.notify_cluster, filter_absent jobID h.Jobs habs]
    exact GoMap.index_assign_self _ _ _ _ hin
  exact ⟨_, RemoveJob_tracked hostID jobID errored s h hfree hin,
    (hall hostID).trans hin, hall⟩

/-- C7 at the host `h2` of the example, which has no job `y`. -/
theorem RemoveJob_absent_job_witness :
    exProcess.c.mtx = RWMutex.free ∧
    GoMap.index exProcess.c.hosts "h2" = some ⟨"h2", [⟨"x", 0⟩], []⟩ ∧
    (∀ job ∈ [(⟨"x", 0⟩ : Job)], job.ID ≠ "y") ∧
    ∃ s', RemoveJob "h2" "y" false exProcess = some (none, s') ∧
      GoMap.index s'.c.hosts "h2" = some ⟨"h2", [⟨"x", 0⟩], []⟩ ∧
      (∀ id, GoMap.index s'.c.hosts id = GoMap.index exProcess.c.hosts id) :=
  ⟨rfl, by decide, by decide,
    RemoveJob_absent_job "h2" "y" false exProcess ⟨"h2", [⟨"x", 0⟩], []⟩ rfl (by decide)
      (by decide)⟩

/-! ### `GetHost` and `ListHosts` -/

theorem copyJobs_eq (l : List Job) : copyJobs l = l := by
  induction l with
  | nil => rfl
  | cons job rest ih => simp [copyJobs, ih]

/-- Taking and releasing the read lock gives the state back. -/
theorem Process.RLock_RUnlock (s : Process) (hw : s.c.mtx.writer = false) :
    ∃ s1, s.RLock = some s1 ∧ s1.c.hosts = s.c.hosts ∧ s1.RUnlock = some s := by
  obtain ⟨⟨addr, hosts, hostClients, ⟨writer, readers⟩⟩, vars, pending, sent⟩ := s
  simp only at hw
  subst hw
  refine ⟨⟨⟨addr, hosts, hostClients, ⟨false, readers + 1⟩⟩, vars, pending, sent⟩, ?_, rfl, ?_⟩
  · simp [Process.RLock]
  · simp [Process.RUnlock]

/-- The method `GetHost`, called while no writer holds the lock: the stored record,
or the zero record for an untracked identifier, and the state as it was. -/
theorem GetHost_eq (id : String) (s : Process) (hw : s.c.mtx.writer = false) :
    GetHost id s = some ((GoMap.index s.c.hosts id).getD Host.zero, s) := by
  obtain ⟨s1, h1, h2, h3⟩ := Process.RLock_RUnlock s hw
  simp only [GetHost, h1, h2, h3, copyJobs_eq]

/-- The loop of `ListHosts`: each key visited is assigned what `GetHost` returns. -/
theorem ListHosts.loop_visits (ks : List String) (acc : GoMap Host) (s : Process)
    (hw : s.c.mtx.writer = false) :
    ∃ res, ListHosts.loop ks acc s = some (res, s) ∧
      ∀ id, GoMap.index res id =
        if id ∈ ks then some ((GoMap.index s.c.hosts id).getD Host.zero)
        else GoMap.index acc id := by
  induction ks generalizing acc with
  | nil => exact ⟨acc, rfl, by simp⟩
  | cons k rest ih =>
    obtain ⟨res, hres, hidx⟩ :=
      ih (GoMap.assign acc k ((GoMap.index s.c.hosts k).getD Host.zero))
    refine ⟨res, ?_, ?_⟩
    · simp only [ListHosts.loop, GetHost_eq k s hw, hres]
    · intro id
      rw [hidx id]
      by_cases hrest : id ∈ rest
      · simp [hrest]
      · by_cases hk : id = k
        · subst hk
          simp [hrest, GoMap.index_assign_same]
        · simp [hrest, hk, GoMap.index_assign_ne _ _ _ _ (fun h => hk h.symm)]

/-- The keys of a map are the identifiers at which the lookup succeeds. -/
theorem GoMap.index_eq_none_iff {α : Type} (m : GoMap α) (id : String) :
    GoMap.index m id = none ↔ id ∉ GoMap.keys m := by
  induction m with
  | nil => simp [GoMap.index, GoMap.keys]
  | cons e rest ih =>
    obtain ⟨k, v⟩ := e
    by_cases hk : k = id
    · simp [GoMap.index, GoMap.keys, hk]
    · have hk1 : ¬ id = k := fun h => hk h.symm
      simpa [GoMap.index, GoMap.keys, hk, hk1] using ih

/-- The method `ListHosts`, called while no writer holds the lock. -/
theorem ListHosts_eq (s : Process) (hw : s.c.mtx.writer = false) :
    ∃ res, ListHosts s = some ((res, none), s) ∧
      ∀ id, GoMap.index res id = GoMap.index s.c.hosts id := by
  obtain ⟨s1, h1, h2, h3⟩ := Process.RLock_RUnlock s hw
  have hw1 : s1.c.mtx.writer = false := by
    have h := h1
    simp only [Process.RLock, hw, if_true] at h
    rw [← Option.some.inj h]
  obtain ⟨res, hres, hidx⟩ := ListHosts.loop_visits (GoMap.keys s1.c.hosts) [] s1 hw1
  refine ⟨res, ?_, ?_⟩
  · simp only [ListHosts, h1, hres, h3]
  · intro id
    rw [hidx id, h2]
    by_cases hmem : id ∈ GoMap.keys s.c.hosts
    · have hsome : GoMap.index s.c.hosts id ≠ none :=
        fun h => (GoMap.index_eq_none_iff _ _).mp h hmem
      obtain ⟨h, hh⟩ := Option.ne_none_iff_exists'.mp hsome
      simp [hmem, hh]
    · simp [hmem, GoMap.index, (GoMap.index_eq_none_iff _ _).mpr hmem]

/-- A successful `AddJobs` returns the host map of the state it leaves, and leaves
the lock free. -/
theorem AddJobs_ok_state (req : AddJobsReq) (s s' : Process) (res : AddJobsRes)
    (hrun : AddJobs req s = some (.ok res, s')) :
    res.State = s'.c.hosts ∧ s'.c.mtx.writer = false ∧
      ∀ id, (GoMap.index s'.c.hosts id).isSome = (GoMap.index s.c.hosts id).isSome := by
  unfold AddJobs at hrun
  cases hl : s.Lock with
  | none => simp [hl] at hrun
  | some s1 =>
    have hs1 : s1.c.hosts = s.c.hosts := by
      unfold Process.Lock at hl
      split at hl
      · rw [← Option.some.inj hl]
      · simp at hl
    have hkeep := (AddJobs.loop_hosts req.HostJobs s1).2
    simp only [hl] at hrun
    generalize AddJobs.loop req.HostJobs s1 = r at hrun hkeep
    obtain ⟨err, s2⟩ := r
    by_cases hw2 : s2.c.mtx.writer = true
    · cases err with
      | some e => simp [Process.Unlock, hw2] at hrun
      | none =>
        simp only [Process.Unlock, hw2, if_true, Option.some.injEq, Prod.mk.injEq,
          Except.ok.injEq] at hrun
        obtain ⟨hres, hs'⟩ := hrun
        subst hs'
        subst hres
        refine ⟨rfl, rfl, ?_⟩
        intro id
        have h := hkeep id
        simp only at h
        rw [hs1] at h
        exact h
    · cases err with
      | some e => simp [Process.Unlock, hw2] at hrun
      | none => simp [Process.Unlock, hw2] at hrun

/-- C8, as stated, fails: `GetHost` has one result, a `host.Host`, and for an
untracked identifier it is the zero record, which is also what it returns for a
tracked host whose record is the zero record. -/
theorem GetHost_untracked_not_distinguished :
    ¬ (∀ (s : Process) (id id1 : String), s.c.mtx.writer = false →
        GoMap.index s.c.hosts id = none → (GoMap.index s.c.hosts id1).isSome →
        (GetHost id s).map Prod.fst ≠ (GetHost id1 s).map Prod.fst) := by
  intro h
  exact h exProcessZero "h9" "h0" rfl (by decide) (by decide) (by decide)

/-- C8, amended: `GetHost` (called while no writer holds the lock) returns the
stored record when the identifier is tracked and the zero record (empty identifier,
no jobs, no attributes) when it is not, in both cases leaving the state as it was;
the result for an untracked identifier differs from the result for a tracked host
exactly when the record of that host is not the zero record. -/
theorem GetHost_result (id : String) (s : Process) (hw : s.c.mtx.writer = false) :
    (∀ h, GoMap.index s.c.hosts id = some h → GetHost id s = some (h, s)) ∧
    (GoMap.index s.c.hosts id = none → GetHost id s = some (Host.zero, s)) ∧
    (∀ id1 h1, GoMap.index s.c.hosts id = none → GoMap.index s.c.hosts id1 = some h1 →
      ((GetHost id s).map Prod.fst ≠ (GetHost id1 s).map Prod.fst ↔ h1 ≠ Host.zero)) := by
  refine ⟨?_, ?_, ?_⟩
  · intro h hin
    rw [GetHost_eq id s hw, hin]
    rfl
  · intro hout
    rw [GetHost_eq id s hw, hout]
    rfl
  · intro id1 h1 hout hin
    rw [GetHost_eq id s hw, GetHost_eq id1 s hw, hout, hin]
    simp only [Option.map_some', Option.getD_none, Option.getD_some, ne_eq, Option.some.injEq]
    exact ⟨fun h heq => h heq.symm, fun h heq => h heq.symm⟩

/-- The amended C8 at the example, with the lock free: `h9` is untracked and `h2`
is tracked with a record that is not the zero record, so `GetHost` returns the zero
record for `h9`, the stored record for `h2`, and the two results differ. -/
theorem GetHost_result_witness :
    exProcess.c.mtx.writer = false ∧
    GoMap.index exProcess.c.hosts "h9" = none ∧
    GoMap.index exProcess.c.hosts "h2" = some ⟨"h2", [⟨"x", 0⟩], []⟩ ∧
    GetHost "h9" exProcess = some (Host.zero, exProcess) ∧
    GetHost "h2" exProcess = some (⟨"h2", [⟨"x", 0⟩], []⟩, exProcess) ∧
    ((GetHost "h9" exProcess).map Prod.fst ≠ (GetHost "h2" exProcess).map Prod.fst
      ↔ (⟨"h2", [⟨"x", 0⟩], []⟩ : Host) ≠ Host.zero) ∧
    (GetHost "h9" exProcess).map Prod.fst ≠ (GetHost "h2" exProcess).map Prod.fst :=
  ⟨rfl, by decide, by decide,
    (GetHost_result "h9" exProcess rfl).2.1 (by decide),
    (GetHost_result "h2" exProcess rfl).1 ⟨"h2", [⟨"x", 0⟩], []⟩ (by decide),
    (GetHost_result "h9" exProcess rfl).2.2 "h2" ⟨"h2", [⟨"x", 0⟩], []⟩ (by decide) (by decide),
    ((GetHost_result "h9" exProcess rfl).2.2 "h2" ⟨"h2", [⟨"x", 0⟩], []⟩
      (by decide) (by decide)).mpr (by decide)⟩

/-- C9: `ListHosts` (called while no writer holds the lock) returns no error and a
map whose keys are exactly the tracked identifiers, each with the stored record,
which is also what `GetHost` returns for that key; `ListHosts` and `GetHost` leave
the state as it was. -/
theorem ListHosts_snapshot (s : Process) (hw : s.c.mtx.writer = false) :
    ∃ res, ListHosts s = some ((res, none), s) ∧
      (∀ id, id ∈ GoMap.keys res ↔ id ∈ GoMap.keys s.c.hosts) ∧
      (∀ id, GoMap.index res id = GoMap.index s.c.hosts id) ∧
      (∀ id h, GoMap.index res id = some h → GetHost id s = some (h, s)) := by
  obtain ⟨res, hres, hidx⟩ := ListHosts_eq s hw
  refine ⟨res, hres, ?_, hidx, ?_⟩
  · intro id
    have h1 := GoMap.index_eq_none_iff res id
    have h2 := GoMap.index_eq_none_iff s.c.hosts id
    rw [hidx id] at h1
    exact not_iff_not.mp (h1.symm.trans h2)
  · intro id h hin
    rw [hidx id] at hin
    rw [GetHost_eq id s hw, hin]
    rfl

/-- C9 at the example, whose lock is free. -/
theorem ListHosts_snapshot_witness :
    exProcess.c.mtx.writer = false ∧
    ∃ res, ListHosts exProcess = some ((res, none), exProcess) ∧
      (∀ id, id ∈ GoMap.keys res ↔ id ∈ GoMap.keys exProcess.c.hosts) ∧
      (∀ id, GoMap.index res id = GoMap.index exProcess.c.hosts id) ∧
      (∀ id h, GoMap.index res id = some h → GetHost id exProcess = some (h, exProcess)) :=
  ⟨rfl, ListHosts_snapshot exProcess rfl⟩

/-- C10: the `State` returned by a successful `AddJobs` is the whole host map after
the call: it has an entry for every host tracked before the call and for every host
tracked after it, and at every identifier it agrees with the map that `ListHosts`
returns when called next. -/
theorem AddJobs_returns_full_state (req : AddJobsReq) (s s' : Process) (res : AddJobsRes)
    (hrun : AddJobs req s = some (.ok res, s')) :
    ∃ listed, ListHosts s' = some ((listed, none), s') ∧
      (∀ id, GoMap.index res.State id = GoMap.index listed id) ∧
      (∀ id, (GoMap.index s.c.hosts id).isSome → (GoMap.index res.State id).isSome) ∧
      (∀ id, (GoMap.index s'.c.hosts id).isSome → (GoMap.index res.State id).isSome) := by
  obtain ⟨hstate, hw, hkeep⟩ := AddJobs_ok_state req s s' res hrun
  obtain ⟨listed, hlist, hidx⟩ := ListHosts_eq s' hw
  refine ⟨listed, hlist, ?_, ?_, ?_⟩
  · intro id
    rw [hstate, hidx id]
  · intro id hid
    rw [hstate, hkeep id]
    exact hid
  · intro id hid
    rw [hstate]
    exact hid

/-- C10 at the example: the request names `h2` and `h1`, both tracked. -/
theorem AddJobs_returns_full_state_witness :
    AddJobs exReqTracked exProcess = some (.ok ⟨exProcessAfter.c.hosts⟩, exProcessAfter) ∧
    ∃ listed, ListHosts exProcessAfter = some ((listed, none), exProcessAfter) ∧
      (∀ id, GoMap.index exProcessAfter.c.hosts id = GoMap.index listed id) ∧
      (∀ id, (GoMap.index exProcess.c.hosts id).isSome →
        (GoMap.index exProcessAfter.c.hosts id).isSome) ∧
      (∀ id, (GoMap.index exProcessAfter.c.hosts id).isSome →
        (GoMap.index exProcessAfter.c.hosts id).isSome) :=
  ⟨rfl,
    AddJobs_returns_full_state exReqTracked exProcess exProcessAfter
      ⟨exProcessAfter.c.hosts⟩ rfl⟩

/-! ### Uniqueness of job identifiers -/

/-- Uniqueness of job identifiers is a property of the host map. -/
theorem UniqueJobs_of_hosts (s t : Process) (hh : t.c.hosts = s.c.hosts) (hu : UniqueJobs s) :
    UniqueJobs t := by
  intro id h hin
  rw [hh] at hin
  exact hu id h hin

/-- Storing a record whose identifiers are distinct keeps uniqueness. -/
theorem UniqueJobs_assign (s t : Process) (hostID : String) (h : Host)
    (hh : t.c.hosts = GoMap.assign s.c.hosts hostID h)
    (hnew : (h.Jobs.map Job.ID).Nodup) (hu : UniqueJobs s) : UniqueJobs t := by
  intro id h1 hin
  rw [hh] at hin
  by_cases hid : hostID = id
  · subst hid
    rw [GoMap.index_assign_same] at hin
    rw [← Option.some.inj hin]
    exact hnew
  · rw [GoMap.index_assign_ne _ _ _ _ hid] at hin
    exact hu id h1 hin

/-- The outer loop of `AddJobs` keeps uniqueness when, for each entry, the jobs of
the host together with the jobs to add have distinct identifiers. -/
theorem AddJobs.loop_unique (l : List (String × List Job)) (s : Process)
    (hnd : (l.map Prod.fst).Nodup) (hu : UniqueJobs s)
    (hcond : ∀ e ∈ l, ∀ h, GoMap.index s.c.hosts e.1 = some h →
      ((h.Jobs ++ e.2).map Job.ID).Nodup) :
    UniqueJobs (AddJobs.loop l s).2 := by
  induction l generalizing s with
  | nil => exact hu
  | cons e rest ih =>
    obtain ⟨hostID, jobs⟩ := e
    simp only [List.map_cons, List.nodup_cons] at hnd
    obtain ⟨hfresh, hnd1⟩ := hnd
    cases hin : GoMap.index s.c.hosts hostID with
    | none =>
      rw [AddJobs.loop_cons_unknown _ _ _ _ hin]
      exact hu
    | some host =>
      rw [AddJobs.loop_cons_tracked _ _ _ _ _ hin]
      apply ih _ hnd1
      · exact UniqueJobs_assign s _ hostID { host with Jobs := host.Jobs ++ jobs } rfl
          (hcond (hostID, jobs) (List.mem_cons_self _ _) host hin) hu
      · intro e he h hh
        have hne : hostID ≠ e.1 := by
          intro heq
          apply hfresh
          rw [heq]
          exact List.mem_map_of_mem Prod.fst he
        simp only at hh
        rw [GoMap.index_assign_ne _ _ _ _ hne] at hh
        exact hcond e (List.mem_cons_of_mem _ he) h hh

/-- Called with the lock free, `RemoveJob` returns, on either path. -/
theorem RemoveJob_returns (hostID jobID : String) (errored : Bool) (s : Process)
    (hfree : s.c.mtx = RWMutex.free) :
    (GoMap.index s.c.hosts hostID = none ∧
      RemoveJob hostID jobID errored s =
        some (some errUnknownHost, { s with c := { s.c with mtx := ⟨true, 0⟩ } })) ∨
    (∃ h, GoMap.index s.c.hosts hostID = some h ∧
      RemoveJob hostID jobID errored s =
        some (none, RemoveJob.notify hostID jobID errored { s with c := { s.c with
          hosts := GoMap.assign s.c.hosts hostID
            { h with Jobs := h.Jobs.filter (fun job => job.ID ≠ jobID) },
          mtx := RWMutex.free } })) := by
  cases hin : GoMap.index s.c.hosts hostID with
  | none =>
    left
    refine ⟨rfl, ?_⟩
    simp only [RemoveJob, RemoveJob.update_unknown hostID jobID s hfree hin]
  | some h =>
    right
    exact ⟨h, rfl, RemoveJob_tracked hostID jobID errored s h hfree hin⟩

/-- The example state has no identifier twice in a job list. -/
theorem exProcess_unique : UniqueJobs exProcess := by
  intro id h hin
  simp only [exProcess, GoMap.index] at hin
  split at hin
  · rw [← Option.some.inj hin]
    decide
  · split at hin
    · rw [← Option.some.inj hin]
      decide
    · simp at hin

/-- C11, as stated, fails: `AddJobs` appends the requested jobs without looking at
the identifiers the host has already, so adding a job `x` to `h2`, which has a job
`x`, leaves `x` twice in its list. -/
theorem AddJobs_breaks_unique :
    ¬ (∀ (s : Process) (req : AddJobsReq), s.c.mtx = RWMutex.free →
        (req.HostJobs.map Prod.fst).Nodup → UniqueJobs s →
        ∀ r s', AddJobs req s = some (r, s') → UniqueJobs s') := by
  intro h
  have hu := h exProcess exReqDup rfl (by decide) exProcess_unique _ _
    (AddJobs_eq exReqDup exProcess rfl)
  have hdup := hu "h2" ⟨"h2", [⟨"x", 0⟩, ⟨"x", 1⟩], []⟩ (by decide)
  revert hdup
  decide

/-- C11, amended: uniqueness of job identifiers within each host's job list is kept
by every `RemoveJob` call, and by every `AddJobs` call for which, at each tracked
host named in the request, the identifiers of the host's jobs and of the jobs to
add are pairwise distinct; both calls taken with the lock free. -/
theorem UniqueJobs_preserved (s : Process) (hfree : s.c.mtx = RWMutex.free)
    (hu : UniqueJobs s) :
    (∀ hostID jobID errored, ∃ r s',
      RemoveJob hostID jobID errored s = some (r, s') ∧ UniqueJobs s') ∧
    (∀ req : AddJobsReq, (req.HostJobs.map Prod.fst).Nodup →
      (∀ e ∈ req.HostJobs, ∀ h, GoMap.index s.c.hosts e.1 = some h →
        ((h.Jobs ++ e.2).map Job.ID).Nodup) →
      ∃ r s', AddJobs req s = some (r, s') ∧ UniqueJobs s') := by
  constructor
  · intro hostID jobID errored
    rcases RemoveJob_returns hostID jobID errored s hfree with ⟨-, hrun⟩ | ⟨h, hin, hrun⟩
    · exact ⟨_, _, hrun, UniqueJobs_of_hosts s _ rfl hu⟩
    · refine ⟨_, _, hrun, ?_⟩
      apply UniqueJobs_assign s _ hostID
        { h with Jobs := h.Jobs.filter (fun job => job.ID ≠ jobID) }
      · rw [RemoveJob.notify_cluster]
      · exact List.Nodup.sublist (List.Sublist.map Job.ID (List.filter_sublist _))
          (hu hostID h hin)
      · exact hu
  · intro req hnd hcond
    refine ⟨_, _, AddJobs_eq req s hfree, ?_⟩
    have hloop := AddJobs.loop_unique req.HostJobs
      { s with c := { s.c with mtx := ⟨true, 0⟩ } } hnd
      (UniqueJobs_of_hosts s _ rfl hu) hcond
    exact UniqueJobs_of_hosts _ _ rfl hloop

/-- The amended C11 at the example state. -/
theorem UniqueJobs_preserved_witness :
    exProcess.c.mtx = RWMutex.free ∧ UniqueJobs exProcess ∧
    ((∀ hostID jobID errored, ∃ r s',
      RemoveJob hostID jobID errored exProcess = some (r, s') ∧ UniqueJobs s') ∧
    (∀ req : AddJobsReq, (req.HostJobs.map Prod.fst).Nodup →
      (∀ e ∈ req.HostJobs, ∀ h, GoMap.index exProcess.c.hosts e.1 = some h →
        ((h.Jobs ++ e.2).map Job.ID).Nodup) →
      ∃ r s', AddJobs req exProcess = some (r, s') ∧ UniqueJobs s')) :=
  ⟨rfl, exProcess_unique, UniqueJobs_preserved exProcess rfl exProcess_unique⟩

/-! ### Goroutines started by `AddJobs` -/

/-- The inner loop starts one goroutine per job, all on the same client and the
same variable. -/
theorem AddJobs.spawn_pending (client : FakeHostClient) (a : Nat) (jobs : List Job)
    (s : Process) :
    (AddJobs.spawn client a jobs s).pending
      = s.pending ++ List.replicate jobs.length ⟨client, a⟩ := by
  induction jobs generalizing s with
  | nil => simp [AddJobs.spawn]
  | cons job rest ih =>
    simp only [AddJobs.spawn, ih, List.length_cons, List.replicate_succ, List.append_assoc,
      List.singleton_append]

theorem startedFor_append (clients : GoMap FakeHostClient) (l1 l2 : List (String × List Job)) :
    startedFor clients (l1 ++ l2) = startedFor clients l1 ++ startedFor clients l2 := by
  induction l1 with
  | nil => rfl
  | cons e rest ih =>
    obtain ⟨hostID, jobs⟩ := e
    cases hcl : GoMap.index clients hostID with
    | none => simp [startedFor, hcl, ih]
    | some client => simp [startedFor, hcl, ih]

/-- The goroutines started for one entry. -/
theorem AddJobs.notify_started (hostID : String) (jobs : List Job) (s : Process) :
    (AddJobs.notify hostID jobs s).pending.map Goroutine.client
      = s.pending.map Goroutine.client ++ startedFor s.c.hostClients [(hostID, jobs)] := by
  cases hcl : GoMap.index s.c.hostClients hostID with
  | none => simp [AddJobs.notify, startedFor, hcl]
  | some client => simp [AddJobs.notify, startedFor, hcl, AddJobs.spawn_pending]

/-- The goroutines started by the outer loop on entries whose hosts are all tracked. -/
theorem AddJobs.loop_started (l : List (String × List Job)) (s : Process)
    (hall : ∀ e ∈ l, (GoMap.index s.c.hosts e.1).isSome) :
    (AddJobs.loop l s).2.pending.map Goroutine.client
      = s.pending.map Goroutine.client ++ startedFor s.c.hostClients l := by
  induction l generalizing s with
  | nil => simp [AddJobs.loop, startedFor]
  | cons e rest ih =>
    obtain ⟨hostID, jobs⟩ := e
    have hhead := hall (hostID, jobs) (List.mem_cons_self _ _)
    obtain ⟨host, hin⟩ := Option.isSome_iff_exists.mp hhead
    simp only at hin
    rw [AddJobs.loop_cons_tracked _ _ _ _ _ hin]
    rw [ih]
    · have h1 := AddJobs.notify_started hostID jobs s
      have h2 := startedFor_append s.c.hostClients [(hostID, jobs)] rest
      simp only [List.singleton_append] at h2
      simp only [h1, h2, List.append_assoc]
    · intro x hx
      have h1 := hall x (List.mem_cons_of_mem _ hx)
      simp only
      rw [GoMap.index_assign_isSome _ _ _ _ (by simp [hin])]
      exact h1

/-- An entry whose host has no client starts nothing. -/
theorem startedFor_skip (clients : GoMap FakeHostClient) (hostID : String) (jobs : List Job)
    (pre post : List (String × List Job)) (hnc : GoMap.index clients hostID = none) :
    startedFor clients (pre ++ (hostID, jobs) :: post) = startedFor clients (pre ++ post) := by
  rw [startedFor_append, startedFor_append]
  simp [startedFor, hnc]

/-- C12: for a tracked host without a registered client, `AddJobs` on a request
naming that host (the other hosts named being tracked) and `RemoveJob` on that host
return no error and update the job list; `AddJobs` sends nothing and starts
goroutines only for the clients of the other entries (none at all when the request
names this host alone), and `RemoveJob` sends nothing and starts nothing. -/
theorem no_client_no_event (s : Process) (hostID : String) (h : Host)
    (hfree : s.c.mtx = RWMutex.free)
    (hin : GoMap.index s.c.hosts hostID = some h)
    (hnc : GoMap.index s.c.hostClients hostID = none) :
    (∀ pre jobs post, ((pre ++ (hostID, jobs) :: post).map Prod.fst).Nodup →
      (∀ e ∈ pre ++ post, (GoMap.index s.c.hosts e.1).isSome) →
      ∃ s' res, AddJobs ⟨pre ++ (hostID, jobs) :: post⟩ s = some (.ok res, s') ∧
        jobsOf s' hostID = some (h.Jobs ++ jobs) ∧
        s'.sent = s.sent ∧
        s'.pending.map Goroutine.client
          = s.pending.map Goroutine.client ++ startedFor s.c.hostClients (pre ++ post)) ∧
    (∀ jobs, ∃ s' res, AddJobs ⟨[(hostID, jobs)]⟩ s = some (.ok res, s') ∧
        jobsOf s' hostID = some (h.Jobs ++ jobs) ∧
        s'.sent = s.sent ∧ s'.pending = s.pending) ∧
    (∀ jobID errored, ∃ s', RemoveJob hostID jobID errored s = some (none, s') ∧
        jobsOf s' hostID = some (h.Jobs.filter (fun job => job.ID ≠ jobID)) ∧
        s'.sent = s.sent ∧ s'.pending = s.pending) := by
  refine ⟨?_, ?_, ?_⟩
  · intro pre jobs post hnd hall
    have hall1 : ∀ e ∈ pre ++ (hostID, jobs) :: post,
        (GoMap.index ({ s with c := { s.c with mtx := ⟨true, 0⟩ } } : Process).c.hosts e.1).isSome := by
      intro e he
      rcases List.mem_append.mp he with h1 | h1
      · exact hall e (List.mem_append_left _ h1)
      · rcases List.mem_cons.mp h1 with h2 | h2
        · subst h2
          simp [hin]
        · exact hall e (List.mem_append_right _ h2)
    obtain ⟨herr, happ⟩ := AddJobs.loop_ok _ _ hall1 hnd
    obtain ⟨h0, hbefore, hafter⟩ := happ hostID jobs (by simp)
    simp only at hbefore
    rw [hin] at hbefore
    have hh : h0 = h := (Option.some.inj hbefore).symm
    subst hh
    have hrun := AddJobs_eq ⟨pre ++ (hostID, jobs) :: post⟩ s hfree
    simp only [herr] at hrun
    refine ⟨_, _, hrun, ?_, ?_, ?_⟩
    · simp only [jobsOf]
      rw [hafter]
      rfl
    · exact (AddJobs.loop_frame _ _).2.2.2
    · have hst := AddJobs.loop_started _ _ hall1
      simp only at hst
      rw [startedFor_skip _ _ _ _ _ hnc] at hst
      exact hst
  · intro jobs
    have hrun := AddJobs_eq ⟨[(hostID, jobs)]⟩ s hfree
    simp only [AddJobs.loop, hin, AddJobs.notify, hnc] at hrun
    refine ⟨_, _, hrun, ?_, rfl, rfl⟩
    simp [jobsOf, GoMap.index_assign_same]
  · intro jobID errored
    refine ⟨_, RemoveJob_tracked hostID jobID errored s h hfree hin, ?_, ?_, ?_⟩
    · simp [jobsOf, RemoveJob.notify_cluster, GoMap.index_assign_same]
    · simp [RemoveJob.notify, hnc]
    · rw [RemoveJob.notify_pending]

/-- C12 at the host `h2` of the example, which has no client. -/
theorem no_client_no_event_witness :
    exProcess.c.mtx = RWMutex.free ∧
    GoMap.index exProcess.c.hosts "h2" = some ⟨"h2", [⟨"x", 0⟩], []⟩ ∧
    GoMap.index exProcess.c.hostClients "h2" = none ∧
    ((∀ pre jobs post, ((pre ++ ("h2", jobs) :: post).map Prod.fst).Nodup →
      (∀ e ∈ pre ++ post, (GoMap.index exProcess.c.hosts e.1).isSome) →
      ∃ s' res, AddJobs ⟨pre ++ ("h2", jobs) :: post⟩ exProcess = some (.ok res, s') ∧
        jobsOf s' "h2" = some ([(⟨"x", 0⟩ : Job)] ++ jobs) ∧
        s'.sent = exProcess.sent ∧
        s'.pending.map Goroutine.client
          = exProcess.pending.map Goroutine.client
            ++ startedFor exProcess.c.hostClients (pre ++ post)) ∧
    (∀ jobs, ∃ s' res, AddJobs ⟨[("h2", jobs)]⟩ exProcess = some (.ok res, s') ∧
        jobsOf s' "h2" = some ([(⟨"x", 0⟩ : Job)] ++ jobs) ∧
        s'.sent = exProcess.sent ∧ s'.pending = exProcess.pending) ∧
    (∀ jobID errored, ∃ s', RemoveJob "h2" jobID errored exProcess = some (none, s') ∧
        jobsOf s' "h2" = some ([(⟨"x", 0⟩ : Job)].filter (fun job => job.ID ≠ jobID)) ∧
        s'.sent = exProcess.sent ∧ s'.pending = exProcess.pending)) :=
  ⟨rfl, by decide, by decide,
    no_client_no_event exProcess "h2" ⟨"h2", [⟨"x", 0⟩], []⟩ rfl (by decide) (by decide)⟩

/-! ### What the operations leave alone -/

theorem SameHeaders_of_hosts (s t : Process) (hh : t.c.hosts = s.c.hosts) :
    SameHeaders s t := by
  intro id
  rw [hh]

theorem SameHeaders_trans (s t u : Process) (h1 : SameHeaders s t) (h2 : SameHeaders t u) :
    SameHeaders s u :=
  fun id => (h2 id).trans (h1 id)

/-- Storing back a record that differs only in its jobs keeps identifiers, identifier
fields and attributes. -/
theorem SameHeaders_assign (s t : Process) (hostID : String) (h : Host) (jobs : List Job)
    (hin : GoMap.index s.c.hosts hostID = some h)
    (hh : t.c.hosts = GoMap.assign s.c.hosts hostID { h with Jobs := jobs }) :
    SameHeaders s t := by
  intro id
  rw [hh]
  by_cases hid : hostID = id
  · subst hid
    rw [GoMap.index_assign_same, hin]
    rfl
  · rw [GoMap.index_assign_ne _ _ _ _ hid]

/-- The outer loop of `AddJobs` changes nothing of a host record but its jobs. -/
theorem AddJobs.loop_headers (l : List (String × List Job)) (s : Process) :
    SameHeaders s (AddJobs.loop l s).2 := by
  induction l generalizing s with
  | nil => exact fun _ => rfl
  | cons e rest ih =>
    obtain ⟨hostID, jobs⟩ := e
    cases hin : GoMap.index s.c.hosts hostID with
    | none =>
      rw [AddJobs.loop_cons_unknown _ _ _ _ hin]
      exact fun _ => rfl
    | some host =>
      rw [AddJobs.loop_cons_tracked _ _ _ _ _ hin]
      exact SameHeaders_trans s _ _
        (SameHeaders_assign s _ hostID host (host.Jobs ++ jobs) hin rfl) (ih _)

/-- C13: `AddJobs`, `RemoveJob`, `ListHosts`, `GetHost` and `SetHostClient`, whether
they return an error or not, leave the set of tracked identifiers and each tracked
host's identifier field and attributes as they were; `AddJobs` and `RemoveJob` leave
the registered clients as they were too, so that of the two maps they change job
lists only; `SetHosts` alone replaces the host map. -/
theorem hosts_only_seeded (s : Process) (hfree : s.c.mtx = RWMutex.free) :
    (∀ req, ∃ r s', AddJobs req s = some (r, s') ∧
      SameHeaders s s' ∧ s'.c.hostClients = s.c.hostClients) ∧
    (∀ hostID jobID errored, ∃ r s', RemoveJob hostID jobID errored s = some (r, s') ∧
      SameHeaders s s' ∧ s'.c.hostClients = s.c.hostClients) ∧
    (∃ r, ListHosts s = some (r, s)) ∧
    (∀ id, ∃ r, GetHost id s = some (r, s)) ∧
    (∀ id client, (SetHostClient id client s).c.hosts = s.c.hosts) ∧
    (∀ hosts, (SetHosts hosts s).c.hosts = hosts) := by
  have hw : s.c.mtx.writer = false := by rw [hfree]; rfl
  refine ⟨?_, ?_, ?_, ?_, ?_, ?_⟩
  · intro req
    refine ⟨_, _, AddJobs_eq req s hfree, ?_, ?_⟩
    · exact SameHeaders_trans s _ _
        (SameHeaders_of_hosts s { s with c := { s.c with mtx := ⟨true, 0⟩ } } rfl)
        (SameHeaders_trans _ _ _ (AddJobs.loop_headers req.HostJobs _)
          (SameHeaders_of_hosts _ _ rfl))
    · exact (AddJobs.loop_frame req.HostJobs _).2.1
  · intro hostID jobID errored
    rcases RemoveJob_returns hostID jobID errored s hfree with ⟨-, hrun⟩ | ⟨h, hin, hrun⟩
    · exact ⟨_, _, hrun, SameHeaders_of_hosts s _ rfl, rfl⟩
    · refine ⟨_, _, hrun, ?_, ?_⟩
      · apply SameHeaders_assign s _ hostID h
          (h.Jobs.filter (fun job => job.ID ≠ jobID)) hin
        rw [RemoveJob.notify_cluster]
      · rw [RemoveJob.notify_cluster]
  · obtain ⟨res, hres, -⟩ := ListHosts_eq s hw
    exact ⟨_, hres⟩
  · intro id
    exact ⟨_, GetHost_eq id s hw⟩
  · intro id client
    rfl
  · intro hosts
    rfl

/-- C13 at the example state. -/
theorem hosts_only_seeded_witness :
    exProcess.c.mtx = RWMutex.free ∧
    ((∀ req, ∃ r s', AddJobs req exProcess = some (r, s') ∧
      SameHeaders exProcess s' ∧ s'.c.hostClients = exProcess.c.hostClients) ∧
    (∀ hostID jobID errored, ∃ r s', RemoveJob hostID jobID errored exProcess = some (r, s') ∧
      SameHeaders exProcess s' ∧ s'.c.hostClients = exProcess.c.hostClients) ∧
    (∃ r, ListHosts exProcess = some (r, exProcess)) ∧
    (∀ id, ∃ r, GetHost id exProcess = some (r, exProcess)) ∧
    (∀ id client, (SetHostClient id client exProcess).c.hosts = exProcess.c.hosts) ∧
    (∀ hosts, (SetHosts hosts exProcess).c.hosts = hosts)) :=
  ⟨rfl, hosts_only_seeded exProcess rfl⟩

/-! ### Registration of clients -/

theorem DialHost_error_iff (id : String) (s : Process) :
    DialHost id s = .error errUnknownHost ↔ GoMap.index s.c.hostClients id = none := by
  unfold DialHost
  cases GoMap.index s.c.hostClients id with
  | none => simp
  | some client => simp

theorem DialHost_registered (id : String) (client : FakeHostClient) (s : Process)
    (hcl : GoMap.index s.c.hostClients id = some client) : DialHost id s = .ok client := by
  simp [DialHost, hcl]

/-- C14: after `SetHostClient id h`, `DialHost id` returns `h`, with no error and
with its `cluster` field set to this cluster; after a second `SetHostClient id h2`
it returns `h2`, and the events of a later `RemoveJob` or `AddJobs` on `id` go to
`h2` alone; the clients registered under other identifiers and the host map are as
before; `DialHost` returns the unknown-host error exactly for the identifiers with
no registered client, which on the cluster made by `NewFakeCluster` is all of them. -/
theorem SetHostClient_last_wins (s : Process) (id : String) (h h2 : FakeHostClient) :
    DialHost id (SetHostClient id h s) = .ok { h with cluster := some s.c.addr } ∧
    DialHost id (SetHostClient id h2 (SetHostClient id h s))
      = .ok { h2 with cluster := some s.c.addr } ∧
    (∀ id1, id1 ≠ id →
      GoMap.index (SetHostClient id h s).c.hostClients id1 = GoMap.index s.c.hostClients id1) ∧
    (SetHostClient id h s).c.hosts = s.c.hosts ∧
    (∀ id1, DialHost id1 s = .error errUnknownHost ↔ GoMap.index s.c.hostClients id1 = none) ∧
    (∀ addr id1, DialHost id1 ⟨NewFakeCluster addr, [], [], []⟩ = .error errUnknownHost) ∧
    (s.c.mtx = RWMutex.free → ∀ host, GoMap.index s.c.hosts id = some host →
      (∀ jobID errored, ∃ s',
        RemoveJob id jobID errored (SetHostClient id h2 (SetHostClient id h s))
          = some (none, s') ∧
        s'.sent = s.sent ++ [⟨{ h2 with cluster := some s.c.addr },
          if errored then "error" else "stop", jobID⟩]) ∧
      (∀ jobs, ∃ s' res,
        AddJobs ⟨[(id, jobs)]⟩ (SetHostClient id h2 (SetHostClient id h s))
          = some (.ok res, s') ∧
        s'.pending.map Goroutine.client = s.pending.map Goroutine.client
          ++ List.replicate jobs.length { h2 with cluster := some s.c.addr })) := by
  have hreg : GoMap.index (SetHostClient id h2 (SetHostClient id h s)).c.hostClients id
      = some { h2 with cluster := some s.c.addr } := by
    simp [SetHostClient, GoMap.index_assign_same]
  refine ⟨?_, ?_, ?_, rfl, ?_, ?_, ?_⟩
  · exact DialHost_registered id _ _ (by simp [SetHostClient, GoMap.index_assign_same])
  · exact DialHost_registered id _ _ hreg
  · intro id1 hne
    exact GoMap.index_assign_ne _ _ _ _ (fun heq => hne heq.symm)
  · intro id1
    exact DialHost_error_iff id1 s
  · intro addr id1
    rfl
  · intro hfree host hin
    have hfree2 : (SetHostClient id h2 (SetHostClient id h s)).c.mtx = RWMutex.free := hfree
    have hin2 : GoMap.index (SetHostClient id h2 (SetHostClient id h s)).c.hosts id
        = some host := hin
    constructor
    · intro jobID errored
      refine ⟨_, RemoveJob_tracked id jobID errored _ host hfree2 hin2, ?_⟩
      have hreg2 : GoMap.index ({ SetHostClient id h2 (SetHostClient id h s) with
          c := { (SetHostClient id h2 (SetHostClient id h s)).c with
            hosts := GoMap.assign (SetHostClient id h2 (SetHostClient id h s)).c.hosts id
              { host with Jobs := host.Jobs.filter (fun job => job.ID ≠ jobID) },
            mtx := RWMutex.free } } : Process).c.hostClients id
          = some { h2 with cluster := some s.c.addr } := hreg
      cases errored
      · simp only [RemoveJob.notify, hreg2, SendEvent]
        rfl
      · simp only [RemoveJob.notify, hreg2, SendEvent]
        rfl
    · intro jobs
      have hall : ∀ e ∈ [(id, jobs)],
          (GoMap.index ({ SetHostClient id h2 (SetHostClient id h s) with
            c := { (SetHostClient id h2 (SetHostClient id h s)).c with mtx := ⟨true, 0⟩ } }
              : Process).c.hosts e.1).isSome := by
        intro e he
        rw [List.mem_singleton.mp he]
        simp only
        rw [hin2]
        rfl
      obtain ⟨herr, -⟩ := AddJobs.loop_ok _ _ hall (by simp)
      have hst := AddJobs.loop_started _ _ hall
      have hrun := AddJobs_eq ⟨[(id, jobs)]⟩ (SetHostClient id h2 (SetHostClient id h s)) hfree2
      simp only [herr] at hrun
      refine ⟨_, _, hrun, ?_⟩
      simp only at hst
      rw [hst]
      simp only [startedFor, hreg, List.append_nil]
      rfl

/-- C14 at the example: `exClient` is registered under `h1` again after another
client, and `h1` is tracked with the lock free. -/
theorem SetHostClient_last_wins_witness :
    exProcess.c.mtx = RWMutex.free ∧
    GoMap.index exProcess.c.hosts "h1" = some ⟨"h1", [], [("zone", "a")]⟩ ∧
    DialHost "h1" (SetHostClient "h1" exClient (SetHostClient "h1" ⟨9, none⟩ exProcess))
      = .ok exClient ∧
    ∃ s', RemoveJob "h1" "j1" false
        (SetHostClient "h1" exClient (SetHostClient "h1" ⟨9, none⟩ exProcess))
          = some (none, s') ∧
      s'.sent = exProcess.sent ++ [⟨exClient, "stop", "j1"⟩] :=
  ⟨rfl, by decide,
    (SetHostClient_last_wins exProcess "h1" ⟨9, none⟩ exClient).2.1,
    ((SetHostClient_last_wins exProcess "h1" ⟨9, none⟩ exClient).2.2.2.2.2.2 rfl
      ⟨"h1", [], [("zone", "a")]⟩ (by decide)).1 "j1" false⟩

/-! ### Adding a job and removing it again -/

theorem set_length_concat {α : Type} (l : List α) (x y : α) :
    (l ++ [x]).set l.length y = l ++ [y] := by
  induction l with
  | nil => rfl
  | cons a rest ih => simp [ih]

theorem get?_length_concat {α : Type} (l : List α) (x : α) :
    (l ++ [x]).get? l.length = some x := by
  induction l with
  | nil => rfl
  | cons a rest ih => simp

theorem eraseIdx_length_concat {α : Type} (l : List α) (x : α) :
    (l ++ [x]).eraseIdx l.length = l := by
  induction l with
  | nil => rfl
  | cons a rest ih => simp [ih]

/-- The state after `AddJobs` of a single job on a tracked host with a client. -/
theorem AddJobs_single (s : Process) (hostID : String) (h : Host) (client : FakeHostClient)
    (job : Job) (hfree : s.c.mtx = RWMutex.free)
    (hin : GoMap.index s.c.hosts hostID = some h)
    (hcl : GoMap.index s.c.hostClients hostID = some client) :
    AddJobs ⟨[(hostID, [job])]⟩ s =
      some (.ok ⟨GoMap.assign s.c.hosts hostID { h with Jobs := h.Jobs ++ [job] }⟩,
        { c := { s.c with
            hosts := GoMap.assign s.c.hosts hostID { h with Jobs := h.Jobs ++ [job] } },
          vars := s.vars ++ [some job],
          pending := s.pending ++ [⟨client, s.vars.length⟩],
          sent := s.sent }) := by
  rw [AddJobs_eq _ s hfree]
  simp only [AddJobs.loop, hin, AddJobs.notify, hcl, AddJobs.spawn, set_length_concat]
  rw [← hfree]

/-- Running the goroutine started last, when it is the only one on its variable. -/
theorem wake_last (c : FakeCluster) (vars : List (Option Job)) (pending : List Goroutine)
    (sent : List SendEventCall) (client : FakeHostClient) (job : Job) :
    Process.wake pending.length
        ⟨c, vars ++ [some job], pending ++ [⟨client, vars.length⟩], sent⟩
      = some ⟨c, vars ++ [some job], pending, sent ++ [⟨client, "start", job.ID⟩]⟩ := by
  simp only [Process.wake, get?_length_concat, eraseIdx_length_concat, Goroutine.run, SendEvent]

/-- C15: on a tracked host with a client and with no job of identifier `job.ID`,
`AddJobs` of the single job `job` returns a state in which the host's job list
contains it (it is the last job) and starts one goroutine; that goroutine, once
run, sends the start event for `job.ID`; `RemoveJob` of `job.ID`, not failed, then
sends the stop event for it and leaves the host's job list exactly as it was before
`AddJobs`. -/
theorem AddJobs_then_RemoveJob (s : Process) (hostID : String) (h : Host)
    (client : FakeHostClient) (job : Job)
    (hfree : s.c.mtx = RWMutex.free)
    (hin : GoMap.index s.c.hosts hostID = some h)
    (hcl : GoMap.index s.c.hostClients hostID = some client)
    (hnew : ∀ j ∈ h.Jobs, j.ID ≠ job.ID) :
    ∃ s1 res, AddJobs ⟨[(hostID, [job])]⟩ s = some (.ok res, s1) ∧
      (GoMap.index res.State hostID).map Host.Jobs = some (h.Jobs ++ [job]) ∧
      s1.sent = s.sent ∧
      s1.pending = s.pending ++ [⟨client, s.vars.length⟩] ∧
      ∃ s2, s1.wake s.pending.length = some s2 ∧
        s2.sent = s.sent ++ [⟨client, "start", job.ID⟩] ∧
        ∃ s3, RemoveJob hostID job.ID false s2 = some (none, s3) ∧
          jobsOf s3 hostID = some h.Jobs ∧
          s3.sent = s.sent ++ [⟨client, "start", job.ID⟩, ⟨client, "stop", job.ID⟩] := by
  refine ⟨_, _, AddJobs_single s hostID h client job hfree hin hcl, ?_, rfl, rfl,
    _, wake_last _ _ _ _ _ _, rfl, ?_⟩
  · simp [GoMap.index_assign_same]
  · have hfilter : (h.Jobs ++ [job]).filter (fun j => j.ID ≠ job.ID) = h.Jobs := by
      rw [List.filter_append, filter_absent job.ID h.Jobs hnew]
      simp
    refine ⟨_, RemoveJob_tracked hostID job.ID false _ { h with Jobs := h.Jobs ++ [job] }
      hfree (GoMap.index_assign_same _ _ _), ?_, ?_⟩
    · simp only [jobsOf, RemoveJob.notify_cluster, GoMap.index_assign_same, hfilter]
      rfl
    · simp [RemoveJob.notify, hcl, SendEvent]

/-- C15 at the scenario of the spec: `h1`, seeded with no jobs and zone `a`, has a
client; the job `j1` is added and removed. -/
theorem AddJobs_then_RemoveJob_witness :
    exProcess.c.mtx = RWMutex.free ∧
    GoMap.index exProcess.c.hosts "h1" = some ⟨"h1", [], [("zone", "a")]⟩ ∧
    GoMap.index exProcess.c.hostClients "h1" = some exClient ∧
    (∀ j ∈ ([] : List Job), j.ID ≠ "j1") ∧
    ∃ s1 res, AddJobs ⟨[("h1", [⟨"j1", 0⟩])]⟩ exProcess = some (.ok res, s1) ∧
      (GoMap.index res.State "h1").map Host.Jobs = some ([] ++ [⟨"j1", 0⟩]) ∧
      s1.sent = exProcess.sent ∧
      s1.pending = exProcess.pending ++ [⟨exClient, exProcess.vars.length⟩] ∧
      ∃ s2, s1.wake exProcess.pending.length = some s2 ∧
        s2.sent = exProcess.sent ++ [⟨exClient, "start", "j1"⟩] ∧
        ∃ s3, RemoveJob "h1" "j1" false s2 = some (none, s3) ∧
          jobsOf s3 "h1" = some [] ∧
          s3.sent = exProcess.sent ++ [⟨exClient, "start", "j1"⟩, ⟨exClient, "stop", "j1"⟩] :=
  ⟨rfl, by decide, by decide, by decide,
    AddJobs_then_RemoveJob exProcess "h1" ⟨"h1", [], [("zone", "a")]⟩ exClient ⟨"j1", 0⟩
      rfl (by decide) (by decide) (by decide)⟩

/-! ### The lock around `RemoveJob` -/

/-- With `SendEvent` for the parameter, `RemoveJobWith` is `RemoveJob`. -/
theorem RemoveJobWith_SendEvent (hostID jobID : String) (errored : Bool) (s : Process) :
    RemoveJobWith SendEvent hostID jobID errored s = RemoveJob hostID jobID errored s := rfl

/-- C16: in `RemoveJob` on a tracked host with a client, whatever the method
`SendEvent` of the client does, it is called exactly once, after the lines 80 to 93
and in the state `mid` they leave: the lock, taken at line 80, is free again in
`mid` and the host map of `mid` already has the job list without the removed job.
A `SendEvent` that records what it finds therefore records the lock free and the
job removed. -/
theorem RemoveJob_sends_after_unlock (hostID jobID : String) (errored : Bool) (s : Process)
    (h : Host) (client : FakeHostClient)
    (hfree : s.c.mtx = RWMutex.free) (hin : GoMap.index s.c.hosts hostID = some h)
    (hcl : GoMap.index s.c.hostClients hostID = some client) :
    ∃ locked mid, s.Lock = some locked ∧ locked.c.mtx.writer = true ∧
      RemoveJob.update hostID jobID s = some (none, mid) ∧
      mid.c.mtx = RWMutex.free ∧
      jobsOf mid hostID = some (h.Jobs.filter (fun job => job.ID ≠ jobID)) ∧
      mid.sent = s.sent ∧
      (∀ send : FakeHostClient → String → String → Process → Process,
        RemoveJobWith send hostID jobID errored s
          = some (none, send client (if errored then "error" else "stop") jobID mid)) ∧
      RemoveJob hostID jobID errored s
        = some (none, SendEvent client (if errored then "error" else "stop") jobID mid) ∧
      (RemoveJobWith (probeEvent hostID) hostID jobID errored s).map (fun r => r.2.sent)
        = some (s.sent ++ [⟨client,
            (if errored then "error" else "stop") ++ ", " ++ "lock free" ++ ", "
              ++ "job removed", jobID⟩]) := by
  have hmid := RemoveJob.update_tracked hostID jobID s h hfree hin
  have hwith : ∀ send : FakeHostClient → String → String → Process → Process,
      RemoveJobWith send hostID jobID errored s
        = some (none, send client (if errored then "error" else "stop") jobID
            { s with c := { s.c with
              hosts := GoMap.assign s.c.hosts hostID
                { h with Jobs := h.Jobs.filter (fun job => job.ID ≠ jobID) },
              mtx := RWMutex.free } }) := by
    intro send
    simp only [RemoveJobWith, hmid, RemoveJob.notifyWith, hcl]
    cases errored <;> simp
  refine ⟨_, _, Process.Lock_free s hfree, rfl, hmid, rfl, ?_, rfl, hwith, ?_, ?_⟩
  · simp [jobsOf, GoMap.index_assign_same]
  · rw [← RemoveJobWith_SendEvent]
    exact hwith SendEvent
  · rw [hwith (probeEvent hostID)]
    simp only [Option.map_some', probeEvent, GoMap.index_assign_same, Option.getD_some,
      if_true, Option.some.injEq]
    have hgone : (h.Jobs.filter (fun job => job.ID ≠ jobID)).any (fun job => job.ID = jobID)
        = false := by
      rw [List.any_eq_false]
      intro job hjob
      simpa using (List.mem_filter.mp hjob).2
    simp [hgone]

/-- C16 at the example after `AddJobs exReqTracked`: `h1` has a client and the jobs
`j2` and `j3`, and `j2` is removed as failed. -/
theorem RemoveJob_sends_after_unlock_witness :
    exProcessAfter.c.mtx = RWMutex.free ∧
    GoMap.index exProcessAfter.c.hosts "h1"
      = some ⟨"h1", [⟨"j2", 0⟩, ⟨"j3", 0⟩], [("zone", "a")]⟩ ∧
    GoMap.index exProcessAfter.c.hostClients "h1" = some exClient ∧
    ∃ locked mid, exProcessAfter.Lock = some locked ∧ locked.c.mtx.writer = true ∧
      RemoveJob.update "h1" "j2" exProcessAfter = some (none, mid) ∧
      mid.c.mtx = RWMutex.free ∧
      jobsOf mid "h1"
        = some ([(⟨"j2", 0⟩ : Job), ⟨"j3", 0⟩].filter (fun job => job.ID ≠ "j2")) ∧
      mid.sent = exProcessAfter.sent ∧
      (∀ send : FakeHostClient → String → String → Process → Process,
        RemoveJobWith send "h1" "j2" true exProcessAfter
          = some (none, send exClient (if true then "error" else "stop") "j2" mid)) ∧
      RemoveJob "h1" "j2" true exProcessAfter
        = some (none, SendEvent exClient (if true then "error" else "stop") "j2" mid) ∧
      (RemoveJobWith (probeEvent "h1") "h1" "j2" true exProcessAfter).map (fun r => r.2.sent)
        = some (exProcessAfter.sent ++ [⟨exClient,
            (if true then "error" else "stop") ++ ", " ++ "lock free" ++ ", "
              ++ "job removed", "j2"⟩]) :=
  ⟨rfl, by decide, by decide,
    RemoveJob_sends_after_unlock "h1" "j2" true exProcessAfter
      ⟨"h1", [⟨"j2", 0⟩, ⟨"j3", 0⟩], [("zone", "a")]⟩ exClient rfl (by decide) (by decide)⟩

/-! ### A failed `AddJobs` -/

/-- The outer loop on a concatenation, when it runs through the first part. -/
theorem AddJobs.loop_append (l1 l2 : List (String × List Job)) (s : Process)
    (hok : (AddJobs.loop l1 s).1 = none) :
    AddJobs.loop (l1 ++ l2) s = AddJobs.loop l2 (AddJobs.loop l1 s).2 := by
  induction l1 generalizing s with
  | nil => rfl
  | cons e rest ih =>
    obtain ⟨hostID, jobs⟩ := e
    cases hin : GoMap.index s.c.hosts hostID with
    | none =>
      rw [AddJobs.loop_cons_unknown _ _ _ _ hin] at hok
      simp at hok
    | some host =>
      rw [AddJobs.loop_cons_tracked _ _ _ _ _ hin] at hok
      rw [List.cons_append, AddJobs.loop_cons_tracked _ _ _ _ _ hin,
        AddJobs.loop_cons_tracked _ _ _ _ _ hin]
      exact ih _ hok

/-- C18: when the entries of the request visited before the first untracked host
are `pre`, the failed `AddJobs` leaves exactly the state that `AddJobs` on `pre`
alone leaves: each host of `pre` has its requested jobs appended, the goroutines of
the entries of `pre` whose hosts have clients are started, every other host is
untouched, and nothing is undone; and for some state and request the host map after
the failed call differs from the one before. -/
theorem AddJobs_fails_after_prefix (s : Process) (pre post : List (String × List Job))
    (hostID : String) (jobs : List Job)
    (hfree : s.c.mtx = RWMutex.free)
    (hnd : ((pre ++ (hostID, jobs) :: post).map Prod.fst).Nodup)
    (hpre : ∀ e ∈ pre, (GoMap.index s.c.hosts e.1).isSome)
    (hout : GoMap.index s.c.hosts hostID = none) :
    (∃ s' res,
      AddJobs ⟨pre ++ (hostID, jobs) :: post⟩ s = some (.error errUnknownHost, s') ∧
      AddJobs ⟨pre⟩ s = some (.ok res, s') ∧
      (∀ k js, (k, js) ∈ pre →
        ∃ h, GoMap.index s.c.hosts k = some h ∧
          GoMap.index s'.c.hosts k = some { h with Jobs := h.Jobs ++ js }) ∧
      (∀ id, id ∉ pre.map Prod.fst → GoMap.index s'.c.hosts id = GoMap.index s.c.hosts id) ∧
      s'.pending.map Goroutine.client
        = s.pending.map Goroutine.client ++ startedFor s.c.hostClients pre) ∧
    (∃ s0 req s0', AddJobs req s0 = some (.error errUnknownHost, s0') ∧
      s0'.c.hosts ≠ s0.c.hosts) := by
  have hndpre : (pre.map Prod.fst).Nodup := by
    rw [List.map_append] at hnd
    exact (List.nodup_append.mp hnd).1
  obtain ⟨herr, happ⟩ :=
    AddJobs.loop_ok pre { s with c := { s.c with mtx := ⟨true, 0⟩ } } hpre hndpre
  obtain ⟨hsame, hkeep⟩ := AddJobs.loop_hosts pre { s with c := { s.c with mtx := ⟨true, 0⟩ } }
  have hstart := AddJobs.loop_started pre { s with c := { s.c with mtx := ⟨true, 0⟩ } } hpre
  have hout1 : GoMap.index
      (AddJobs.loop pre { s with c := { s.c with mtx := ⟨true, 0⟩ } }).2.c.hosts hostID
        = none := by
    have h1 := hkeep hostID
    simp only at h1
    rw [hout] at h1
    simpa using h1
  have hfull : AddJobs.loop (pre ++ (hostID, jobs) :: post)
      { s with c := { s.c with mtx := ⟨true, 0⟩ } }
        = (some errUnknownHost,
            (AddJobs.loop pre { s with c := { s.c with mtx := ⟨true, 0⟩ } }).2) := by
    rw [AddJobs.loop_append _ _ _ herr, AddJobs.loop_cons_unknown _ _ _ _ hout1]
  have hrun := AddJobs_eq ⟨pre ++ (hostID, jobs) :: post⟩ s hfree
  simp only [hfull] at hrun
  have hrunpre := AddJobs_eq ⟨pre⟩ s hfree
  simp only [herr] at hrunpre
  refine ⟨⟨_, _, hrun, hrunpre, happ, hsame, hstart⟩, ?_⟩
  exact ⟨exProcess, exReqUnknown, exProcessPartial, rfl, by decide⟩

/-- C18 at the example: the request names `h1`, tracked, and then `h9`, untracked. -/
theorem AddJobs_fails_after_prefix_witness :
    exProcess.c.mtx = RWMutex.free ∧
    (([("h1", [(⟨"j1", 0⟩ : Job)])] ++ ("h9", [(⟨"j2", 0⟩ : Job)]) :: []).map Prod.fst).Nodup ∧
    (∀ e ∈ [("h1", [(⟨"j1", 0⟩ : Job)])], (GoMap.index exProcess.c.hosts e.1).isSome) ∧
    GoMap.index exProcess.c.hosts "h9" = none ∧
    ((∃ s' res,
      AddJobs ⟨[("h1", [⟨"j1", 0⟩])] ++ ("h9", [⟨"j2", 0⟩]) :: []⟩ exProcess
        = some (.error errUnknownHost, s') ∧
      AddJobs ⟨[("h1", [⟨"j1", 0⟩])]⟩ exProcess = some (.ok res, s') ∧
      (∀ k js, (k, js) ∈ [("h1", [(⟨"j1", 0⟩ : Job)])] →
        ∃ h, GoMap.index exProcess.c.hosts k = some h ∧
          GoMap.index s'.c.hosts k = some { h with Jobs := h.Jobs ++ js }) ∧
      (∀ id, id ∉ [("h1", [(⟨"j1", 0⟩ : Job)])].map Prod.fst →
        GoMap.index s'.c.hosts id = GoMap.index exProcess.c.hosts id) ∧
      s'.pending.map Goroutine.client
        = exProcess.pending.map Goroutine.client
          ++ startedFor exProcess.c.hostClients [("h1", [⟨"j1", 0⟩])]) ∧
    (∃ s0 req s0', AddJobs req s0 = some (.error errUnknownHost, s0') ∧
      s0'.c.hosts ≠ s0.c.hosts)) :=
  ⟨rfl, by decide, by decide, by decide,
    AddJobs_fails_after_prefix exProcess [("h1", [⟨"j1", 0⟩])] [] "h9" [⟨"j2", 0⟩]
      rfl (by decide) (by decide) (by decide)⟩

/-! ### Pending goroutines -/

/-- The inner loop writes only the variable allocated for it. -/
theorem AddJobs.spawn_vars (client : FakeHostClient) (jobs : List Job) (s : Process)
    (base : List (Option Job)) (x : Option Job) (hv : s.vars = base ++ [x]) :
    ∃ y, (AddJobs.spawn client base.length jobs s).vars = base ++ [y] := by
  induction jobs generalizing s x with
  | nil => exact ⟨x, hv⟩
  | cons job rest ih =>
    simp only [AddJobs.spawn]
    exact ih _ (some job) (by simp only [hv, set_length_concat])

/-- One entry of a request only adds variables and goroutines. -/
theorem AddJobs.notify_grows (hostID : String) (jobs : List Job) (s : Process) :
    ∃ newVars newPending, (AddJobs.notify hostID jobs s).vars = s.vars ++ newVars ∧
      (AddJobs.notify hostID jobs s).pending = s.pending ++ newPending := by
  cases hcl : GoMap.index s.c.hostClients hostID with
  | none => exact ⟨[], [], by simp [AddJobs.notify, hcl], by simp [AddJobs.notify, hcl]⟩
  | some client =>
    obtain ⟨y, hy⟩ := AddJobs.spawn_vars client jobs { s with vars := s.vars ++ [none] }
      s.vars none rfl
    refine ⟨[y], List.replicate jobs.length ⟨client, s.vars.length⟩, ?_, ?_⟩
    · simp only [AddJobs.notify, hcl]
      exact hy
    · simp only [AddJobs.notify, hcl, AddJobs.spawn_pending]

/-- The outer loop only adds variables and goroutines. -/
theorem AddJobs.loop_grows (l : List (String × List Job)) (s : Process) :
    ∃ newVars newPending, (AddJobs.loop l s).2.vars = s.vars ++ newVars ∧
      (AddJobs.loop l s).2.pending = s.pending ++ newPending := by
  induction l generalizing s with
  | nil => exact ⟨[], [], by simp [AddJobs.loop], by simp [AddJobs.loop]⟩
  | cons e rest ih =>
    obtain ⟨hostID, jobs⟩ := e
    cases hin : GoMap.index s.c.hosts hostID with
    | none =>
      rw [AddJobs.loop_cons_unknown _ _ _ _ hin]
      exact ⟨[], [], by simp, by simp⟩
    | some host =>
      rw [AddJobs.loop_cons_tracked _ _ _ _ _ hin]
      obtain ⟨v1, p1, hv1, hp1⟩ := AddJobs.notify_grows hostID jobs s
      obtain ⟨v2, p2, hv2, hp2⟩ := ih { AddJobs.notify hostID jobs s with
          c := { s.c with
            hosts := GoMap.assign s.c.hosts hostID { host with Jobs := host.Jobs ++ jobs } } }
      refine ⟨v1 ++ v2, p1 ++ p2, ?_, ?_⟩
      · rw [hv2]
        simp only [hv1, List.append_assoc]
      · rw [hp2]
        simp only [hp1, List.append_assoc]

theorem RemoveJob.notify_vars (hostID jobID : String) (errored : Bool) (s : Process) :
    (RemoveJob.notify hostID jobID errored s).vars = s.vars := by
  unfold RemoveJob.notify
  split
  · split <;> rfl
  · rfl

/-- C19: no operation takes a goroutine off the pending list or writes a variable
that a pending goroutine captured: `RemoveJob`, `ListHosts`, `GetHost`, `SetHosts`
and `SetHostClient` leave both as they were, and `AddJobs` only adds to them; so,
after `AddJobs` of a job on a host with a client and `RemoveJob` of that job, the
job is no longer on the host and its goroutine, once run, still sends the start
event for it. -/
theorem start_event_not_suppressed (s : Process) (hfree : s.c.mtx = RWMutex.free) :
    (∀ hostID jobID errored, ∃ r s', RemoveJob hostID jobID errored s = some (r, s') ∧
      s'.pending = s.pending ∧ s'.vars = s.vars) ∧
    (∃ r, ListHosts s = some (r, s)) ∧
    (∀ id, ∃ r, GetHost id s = some (r, s)) ∧
    (∀ hosts, (SetHosts hosts s).pending = s.pending ∧ (SetHosts hosts s).vars = s.vars) ∧
    (∀ id client, (SetHostClient id client s).pending = s.pending ∧
      (SetHostClient id client s).vars = s.vars) ∧
    (∀ req, ∃ r s' newVars newPending, AddJobs req s = some (r, s') ∧
      s'.vars = s.vars ++ newVars ∧ s'.pending = s.pending ++ newPending) ∧
    (∀ hostID h client job errored, GoMap.index s.c.hosts hostID = some h →
      GoMap.index s.c.hostClients hostID = some client →
      ∃ s1 res, AddJobs ⟨[(hostID, [job])]⟩ s = some (.ok res, s1) ∧
        ∃ s2, RemoveJob hostID job.ID errored s1 = some (none, s2) ∧
          (∀ jobs, jobsOf s2 hostID = some jobs → ∀ j ∈ jobs, j.ID ≠ job.ID) ∧
          s2.pending = s1.pending ∧
          ∃ s3, s2.wake s.pending.length = some s3 ∧
            s3.sent = s2.sent ++ [⟨client, "start", job.ID⟩]) := by
  have hw : s.c.mtx.writer = false := by rw [hfree]; rfl
  refine ⟨?_, ?_, ?_, ?_, ?_, ?_, ?_⟩
  · intro hostID jobID errored
    rcases RemoveJob_returns hostID jobID errored s hfree with ⟨-, hrun⟩ | ⟨h, -, hrun⟩
    · exact ⟨_, _, hrun, rfl, rfl⟩
    · exact ⟨_, _, hrun, by rw [RemoveJob.notify_pending], by rw [RemoveJob.notify_vars]⟩
  · obtain ⟨res, hres, -⟩ := ListHosts_eq s hw
    exact ⟨_, hres⟩
  · intro id
    exact ⟨_, GetHost_eq id s hw⟩
  · intro hosts
    exact ⟨rfl, rfl⟩
  · intro id client
    exact ⟨rfl, rfl⟩
  · intro req
    obtain ⟨newVars, newPending, hv, hp⟩ :=
      AddJobs.loop_grows req.HostJobs { s with c := { s.c with mtx := ⟨true, 0⟩ } }
    exact ⟨_, _, newVars, newPending, AddJobs_eq req s hfree, hv, hp⟩
  · intro hostID h client job errored hin hcl
    refine ⟨_, _, AddJobs_single s hostID h client job hfree hin hcl, ?_⟩
    have hrm := RemoveJob_tracked hostID job.ID errored
      ({ c := { s.c with
            hosts := GoMap.assign s.c.hosts hostID { h with Jobs := h.Jobs ++ [job] } },
          vars := s.vars ++ [some job],
          pending := s.pending ++ [⟨client, s.vars.length⟩],
          sent := s.sent } : Process)
      { h with Jobs := h.Jobs ++ [job] } hfree (GoMap.index_assign_same _ _ _)
    cases errored
    · simp only [RemoveJob.notify, hcl, SendEvent, Bool.false_eq_true, if_false] at hrm
      refine ⟨_, hrm, ?_, rfl, _, wake_last _ _ _ _ _ _, rfl⟩
      intro jobs hj j hmem
      simp only [jobsOf, GoMap.index_assign_same, Option.map_some', Option.some.injEq] at hj
      subst hj
      simpa using (List.mem_filter.mp hmem).2
    · simp only [RemoveJob.notify, hcl, SendEvent, if_true] at hrm
      refine ⟨_, hrm, ?_, rfl, _, wake_last _ _ _ _ _ _, rfl⟩
      intro jobs hj j hmem
      simp only [jobsOf, GoMap.index_assign_same, Option.map_some', Option.some.injEq] at hj
      subst hj
      simpa using (List.mem_filter.mp hmem).2

/-- C19 at the example state, whose lock is free; its last part is taken at `h1`. -/
theorem start_event_not_suppressed_witness :
    exProcess.c.mtx = RWMutex.free ∧
    GoMap.index exProcess.c.hosts "h1" = some ⟨"h1", [], [("zone", "a")]⟩ ∧
    GoMap.index exProcess.c.hostClients "h1" = some exClient ∧
    ∃ s1 res, AddJobs ⟨[("h1", [⟨"j1", 0⟩])]⟩ exProcess = some (.ok res, s1) ∧
      ∃ s2, RemoveJob "h1" "j1" false s1 = some (none, s2) ∧
        (∀ jobs, jobsOf s2 "h1" = some jobs → ∀ j ∈ jobs, j.ID ≠ "j1") ∧
        s2.pending = s1.pending ∧
        ∃ s3, s2.wake exProcess.pending.length = some s3 ∧
          s3.sent = s2.sent ++ [⟨exClient, "start", "j1"⟩] :=
  ⟨rfl, by decide, by decide,
    (start_event_not_suppressed exProcess rfl).2.2.2.2.2.2 "h1" ⟨"h1", [], [("zone", "a")]⟩
      exClient ⟨"j1", 0⟩ false (by decide) (by decide)⟩

/-! ### Balance of the lock -/

/-- C20, evaluated on the code: `RemoveJob` on the untracked identifier `h9`,
called with the lock free, returns the unknown-host error with the lock still held
by a writer (the return of line 83 comes before the `Unlock` of line 93), and
`AddJobs`, `RemoveJob`, `GetHost` and `ListHosts` called next never return; the
unknown-host return of `AddJobs`, whose `Unlock` is deferred, leaves the lock free. -/
theorem RemoveJob_unknown_host_keeps_lock :
    (RemoveJob "h9" "x" false exProcess).map (fun r => (r.1, r.2.c.mtx))
      = some (some errUnknownHost, ⟨true, 0⟩) ∧
    ((RemoveJob "h9" "x" false exProcess).bind (fun r => AddJobs exReqOne r.2)).isNone ∧
    ((RemoveJob "h9" "x" false exProcess).bind (fun r => RemoveJob "h1" "j1" false r.2)).isNone ∧
    ((RemoveJob "h9" "x" false exProcess).bind (fun r => GetHost "h1" r.2)).isNone ∧
    ((RemoveJob "h9" "x" false exProcess).bind (fun r => ListHosts r.2)).isNone ∧
    (AddJobs exReqUnknown exProcess).map (fun r => r.2.c.mtx) = some RWMutex.free := by
  decide

end Testutils
